import Mathlib

/-
  Verification of the MeDoraH_NLP analysis scripts.

  The Python sources are shallowly embedded: pandas DataFrames become either
  column-oriented records or lists of row records, the external library calls
  (UMAP, HDBSCAN, StandardScaler, WordNet) become oracle parameters whose
  outputs the scripts merely copy or traverse, floating point quantities that
  the scripts only copy, compare or sum become exact rationals, and the regex
  passes of the preprocessing scripts become character-list scanners.
-/

/- ===================== Shared: cluster counting ===================== -/

/-- The scripts compute the number of clusters as
len(set(labels)) - (1 if -1 in labels else 0). -/
def n_clusters_of (labels : List Int) : Nat :=
  labels.dedup.length - (if (-1 : Int) ∈ labels then 1 else 0)

/-- Counting distinct labels via dedup agrees with the Finset of labels with
the noise sentinel erased. -/
theorem n_clusters_of_eq_card_erase (labels : List Int) :
    n_clusters_of labels = (labels.toFinset.erase (-1)).card := by
  unfold n_clusters_of
  by_cases h : (-1 : Int) ∈ labels
  · rw [if_pos h, Finset.card_erase_of_mem (List.mem_toFinset.mpr h),
      List.card_toFinset]
  · rw [if_neg h, Finset.erase_eq_of_not_mem (fun hc => h (List.mem_toFinset.mp hc)),
      List.card_toFinset]
    omega

/- ===================== C1: cluster_embeddings ===================== -/

/-- Column-oriented view of the embedding DataFrame: a column that has not
been assigned yet is none.  Only the columns the claim speaks about are
modelled; nRows stands for the table's length. -/
structure EmbDF where
  nRows : Nat
  cluster : Option (List Int)
  probability : Option (List ℚ)
  outlier_score : Option (List ℚ)
deriving DecidableEq, Repr

/-- The outputs of the external hdbscan.HDBSCAN fit that the scripts copy:
labels_, probabilities_ and outlier_scores_. -/
structure HDBSCANOut where
  labels : List Int
  probabilities : List ℚ
  outlier_scores : List ℚ
deriving DecidableEq, Repr

/-- cluster_embeddings of Claim Clustering_Report.py and
Predicate with WordNet.py: it assigns the clusterer's labels_,
probabilities_ and outlier_scores_ as the df's cluster, probability and
outlier_score columns, and derives n_clusters and n_noise. -/
def cluster_embeddings (df : EmbDF) (c : HDBSCANOut) : EmbDF × Nat × Nat :=
  let df2 := { df with
    cluster := some c.labels
    probability := some c.probabilities
    outlier_score := some c.outlier_scores }
  (df2, n_clusters_of c.labels, c.labels.count (-1))

/-- cluster_embeddings of Cluster Assessment.py: identical except that it
assigns only the cluster and probability columns; no outlier_score column is
written. -/
def cluster_embeddings_assess (df : EmbDF) (c : HDBSCANOut) : EmbDF × Nat × Nat :=
  let df2 := { df with
    cluster := some c.labels
    probability := some c.probabilities }
  (df2, n_clusters_of c.labels, c.labels.count (-1))

/-- An empty one-row table. -/
def dfC1 : EmbDF :=
  { nRows := 1, cluster := none, probability := none, outlier_score := none }

/-- A concrete clusterer output for the C1 counterexample. -/
def outC1 : HDBSCANOut :=
  { labels := [-1], probabilities := [1/2], outlier_scores := [3/4] }

/-- C1 counterexample: after cluster_embeddings of Cluster Assessment.py
(one of the three implementations the claim covers) runs on a concrete
one-row table, the table's outlier_score column does NOT hold the
clusterer's outlier scores — that variant never assigns the column — so the
claim that every row is augmented with an outlier score copied from the
clusterer is false as stated. -/
theorem c1_outlier_score_not_copied :
    ¬ (cluster_embeddings_assess dfC1 outC1).1.outlier_score
        = some outC1.outlier_scores := by
  decide

/-- C1 (amended): in the two report scripts, cluster_embeddings augments the
table with the cluster, probability and outlier_score columns copied
unchanged from the clusterer; in the assessment script it copies only the
cluster and probability columns, leaving outlier_score untouched; in every
variant n_clusters is the number of distinct labels excluding -1 and n_noise
is the number of rows labelled -1. -/
theorem c1_cluster_embeddings_amended (df : EmbDF) (c : HDBSCANOut) :
    ((cluster_embeddings df c).1.cluster = some c.labels
      ∧ (cluster_embeddings df c).1.probability = some c.probabilities
      ∧ (cluster_embeddings df c).1.outlier_score = some c.outlier_scores
      ∧ (cluster_embeddings df c).2.1 = (c.labels.toFinset.erase (-1)).card
      ∧ (cluster_embeddings df c).2.2 = c.labels.count (-1))
    ∧ ((cluster_embeddings_assess df c).1.cluster = some c.labels
      ∧ (cluster_embeddings_assess df c).1.probability = some c.probabilities
      ∧ (cluster_embeddings_assess df c).1.outlier_score = df.outlier_score
      ∧ (cluster_embeddings_assess df c).2.1 = (c.labels.toFinset.erase (-1)).card
      ∧ (cluster_embeddings_assess df c).2.2 = c.labels.count (-1)) := by
  refine ⟨⟨rfl, rfl, rfl, ?_, rfl⟩, ⟨rfl, rfl, rfl, ?_, rfl⟩⟩
  · exact n_clusters_of_eq_card_erase c.labels
  · exact n_clusters_of_eq_card_erase c.labels

/- ===================== C6: optimize_clustering_parameters ============ -/

/-- One entry of param_results in optimize_clustering_parameters; noiseFrac
is the source's noise_ratio (n_noise divided by the table length). -/
structure ParamResult where
  min_cluster_size : Nat
  min_samples : Nat
  n_clusters : Nat
  noiseFrac : ℚ
deriving DecidableEq, Repr

/-- The min_cluster_size values the sweep tries, in source order. -/
def candidateSizes : List Nat := [20, 30, 40, 50, 75, 100, 150, 200]

/-- One iteration of the sweep: min_samples = max(5, min_cluster_size // 2),
then the clusterer (abstracted as an oracle from the two parameters to its
labels over the fixed normalized projection) is fit and summarised. -/
def evalParams (oracle : Nat → Nat → List Int) (dfLen : Nat) (mcs : Nat) :
    ParamResult :=
  let ms := max 5 (mcs / 2)
  let labels := oracle mcs ms
  { min_cluster_size := mcs
    min_samples := ms
    n_clusters := n_clusters_of labels
    noiseFrac := (labels.count (-1) : ℚ) / (dfLen : ℚ) }

/-- Distance of a result's cluster count from the midpoint of the target
range, the key of the final min() call. -/
def distToMid (lo hi : Nat) (r : ParamResult) : ℚ :=
  |(r.n_clusters : ℚ) - ((lo : ℚ) + (hi : ℚ)) / 2|

/-- Python's min with a key returns the first element attaining the minimal
key; modelled as a left fold that replaces the best only on strict
improvement. -/
def bestBy (lo hi : Nat) (first : ParamResult) (rest : List ParamResult) :
    ParamResult :=
  rest.foldl (fun best r => if distToMid lo hi r < distToMid lo hi best then r else best) first

/-- Membership of a result's cluster count in the inclusive target range. -/
def inTargetRange (lo hi : Nat) (r : ParamResult) : Prop :=
  lo ≤ r.n_clusters ∧ r.n_clusters ≤ hi

instance (lo hi : Nat) (r : ParamResult) : Decidable (inTargetRange lo hi r) := by
  unfold inTargetRange
  infer_instance

/-- The sweep loop: evaluate candidates in order, return the first result
whose cluster count is inside the inclusive target range; if none is, return
the evaluated result closest to the range's midpoint. -/
def optGo (oracle : Nat → Nat → List Int) (dfLen lo hi : Nat) :
    List ParamResult → List Nat → ParamResult
  | acc, [] =>
    match acc with
    | [] => { min_cluster_size := 0, min_samples := 0, n_clusters := 0, noiseFrac := 0 }
    | a :: rest => bestBy lo hi a rest
  | acc, mcs :: more =>
    if inTargetRange lo hi (evalParams oracle dfLen mcs) then
      evalParams oracle dfLen mcs
    else optGo oracle dfLen lo hi (acc ++ [evalParams oracle dfLen mcs]) more

/-- optimize_clustering_parameters over the abstracted clusterer. -/
def optimize_clustering_parameters (oracle : Nat → Nat → List Int)
    (dfLen lo hi : Nat) : ParamResult :=
  optGo oracle dfLen lo hi [] candidateSizes

theorem bestBy_mem (lo hi : Nat) (a : ParamResult) (rest : List ParamResult) :
    bestBy lo hi a rest ∈ a :: rest := by
  induction rest generalizing a with
  | nil => simp [bestBy]
  | cons x xs ih =>
    unfold bestBy
    rw [List.foldl_cons]
    by_cases h : distToMid lo hi x < distToMid lo hi a
    · rw [if_pos h]
      have := ih x
      unfold bestBy at this
      rcases List.mem_cons.mp this with h1 | h1
      · exact List.mem_cons.mpr (Or.inr (List.mem_cons.mpr (Or.inl h1)))
      · exact List.mem_cons.mpr (Or.inr (List.mem_cons.mpr (Or.inr h1)))
    · rw [if_neg h]
      have := ih a
      unfold bestBy at this
      rcases List.mem_cons.mp this with h1 | h1
      · exact List.mem_cons.mpr (Or.inl h1)
      · exact List.mem_cons.mpr (Or.inr (List.mem_cons.mpr (Or.inr h1)))

theorem bestBy_le (lo hi : Nat) (a : ParamResult) (rest : List ParamResult) :
    ∀ x ∈ a :: rest, distToMid lo hi (bestBy lo hi a rest) ≤ distToMid lo hi x := by
  induction rest generalizing a with
  | nil =>
    intro x hx
    rcases List.mem_cons.mp hx with h | h
    · subst h; simp [bestBy]
    · simp at h
  | cons y ys ih =>
    intro x hx
    unfold bestBy
    rw [List.foldl_cons]
    by_cases h : distToMid lo hi y < distToMid lo hi a
    · rw [if_pos h]
      rcases List.mem_cons.mp hx with h1 | h1
      · rw [h1]
        exact le_trans (ih y y (List.mem_cons_self y ys)) (le_of_lt h)
      · rcases List.mem_cons.mp h1 with h2 | h2
        · rw [h2]; exact ih y y (List.mem_cons_self y ys)
        · exact ih y x (List.mem_cons.mpr (Or.inr h2))
    · rw [if_neg h]
      rcases List.mem_cons.mp hx with h1 | h1
      · rw [h1]; exact ih a a (List.mem_cons_self a ys)
      · rcases List.mem_cons.mp h1 with h2 | h2
        · rw [h2]
          exact le_trans (ih a a (List.mem_cons_self a ys)) (le_of_not_lt h)
        · exact ih a x (List.mem_cons.mpr (Or.inr h2))

theorem optGo_found (oracle : Nat → Nat → List Int) (dfLen lo hi : Nat)
    (rem : List Nat) (r : ParamResult) :
    ∀ acc, (rem.map (evalParams oracle dfLen)).find?
        (fun q => decide (inTargetRange lo hi q)) = some r →
      optGo oracle dfLen lo hi acc rem = r := by
  induction rem with
  | nil => intro acc h; simp at h
  | cons mcs more ih =>
    intro acc h
    unfold optGo
    by_cases hin : inTargetRange lo hi (evalParams oracle dfLen mcs)
    · rw [if_pos hin]
      simp only [List.map_cons, List.find?_cons, decide_eq_true hin] at h
      exact Option.some.inj h
    · rw [if_neg hin]
      simp only [List.map_cons, List.find?_cons, decide_eq_false hin] at h
      exact ih _ h

theorem optGo_not_found (oracle : Nat → Nat → List Int) (dfLen lo hi : Nat)
    (rem : List Nat) :
    ∀ acc, (rem.map (evalParams oracle dfLen)).find?
        (fun q => decide (inTargetRange lo hi q)) = none →
      optGo oracle dfLen lo hi acc rem =
        (match acc ++ rem.map (evalParams oracle dfLen) with
          | [] => { min_cluster_size := 0, min_samples := 0, n_clusters := 0, noiseFrac := 0 }
          | a :: rest => bestBy lo hi a rest) := by
  induction rem with
  | nil => intro acc _; simp [optGo]
  | cons mcs more ih =>
    intro acc h
    by_cases hin : inTargetRange lo hi (evalParams oracle dfLen mcs)
    · simp only [List.map_cons, List.find?_cons, decide_eq_true hin] at h
      exact Option.noConfusion h
    · simp only [List.map_cons, List.find?_cons, decide_eq_false hin] at h
      unfold optGo
      rw [if_neg hin, ih (acc ++ [evalParams oracle dfLen mcs]) h]
      have hl : acc ++ [evalParams oracle dfLen mcs]
            ++ List.map (evalParams oracle dfLen) more
          = acc ++ evalParams oracle dfLen mcs
            :: List.map (evalParams oracle dfLen) more := by
        simp
      rw [List.map_cons, hl]

/-- C6: the sweep tries min_cluster_size 20,30,40,50,75,100,150,200 in
ascending order, each with min_samples = max(5, mcs // 2); it returns the
first evaluated setting whose cluster count lies in the inclusive target
range, and when none does, a setting among the evaluated ones whose distance
to the range midpoint is minimal. -/
theorem c6_optimize_clustering_parameters (oracle : Nat → Nat → List Int)
    (dfLen lo hi : Nat) :
    ((candidateSizes.map (evalParams oracle dfLen)).map (fun r => r.min_cluster_size)
        = candidateSizes
      ∧ List.Chain' (· < ·) candidateSizes
      ∧ ∀ r ∈ candidateSizes.map (evalParams oracle dfLen),
          r.min_samples = max 5 (r.min_cluster_size / 2))
    ∧ (∀ r, (candidateSizes.map (evalParams oracle dfLen)).find?
          (fun q => decide (inTargetRange lo hi q)) = some r →
        optimize_clustering_parameters oracle dfLen lo hi = r)
    ∧ ((candidateSizes.map (evalParams oracle dfLen)).find?
          (fun q => decide (inTargetRange lo hi q)) = none →
        optimize_clustering_parameters oracle dfLen lo hi
            ∈ candidateSizes.map (evalParams oracle dfLen)
          ∧ ∀ r ∈ candidateSizes.map (evalParams oracle dfLen),
              distToMid lo hi (optimize_clustering_parameters oracle dfLen lo hi)
                ≤ distToMid lo hi r) := by
  refine ⟨⟨?_, ?_, ?_⟩, ?_, ?_⟩
  · simp [candidateSizes, evalParams]
  · simp [candidateSizes]
  · intro r hr
    rw [List.mem_map] at hr
    obtain ⟨mcs, _, hmap⟩ := hr
    subst hmap
    rfl
  · intro r h
    exact optGo_found oracle dfLen lo hi candidateSizes r [] h
  · intro h
    have := optGo_not_found oracle dfLen lo hi candidateSizes [] h
    unfold optimize_clustering_parameters
    rw [this, List.nil_append]
    constructor
    · cases hc : candidateSizes.map (evalParams oracle dfLen) with
      | nil => simp [candidateSizes] at hc
      | cons a rest =>
        simpa [hc] using bestBy_mem lo hi a rest
    · intro r hr
      cases hc : candidateSizes.map (evalParams oracle dfLen) with
      | nil => simp [candidateSizes] at hc
      | cons a rest =>
        rw [hc] at hr
        simpa [hc] using bestBy_le lo hi a rest r hr

/-- A concrete clusterer oracle for the C6 witness: always one cluster,
no noise. -/
def oracleC6 : Nat → Nat → List Int := fun _ _ => [0, 0, 0]

/-- C6 witness: at the concrete oracle with target range (40, 60), no tried
setting is in range, and the theorem yields a minimiser among the eight
evaluated settings. -/
theorem c6_witness :
    optimize_clustering_parameters oracleC6 3 40 60
        ∈ candidateSizes.map (evalParams oracleC6 3)
      ∧ ∀ r ∈ candidateSizes.map (evalParams oracleC6 3),
          distToMid 40 60 (optimize_clustering_parameters oracleC6 3 40 60)
            ≤ distToMid 40 60 r :=
  (c6_optimize_clustering_parameters oracleC6 3 40 60).2.2 (by decide)

/- ===================== C7: assess_2d_parameters ===================== -/

/-- Output of one grid clusterer fit in Cluster Assessment.py: its labels
and, when the library makes it available, the DBCV relative validity; the
source's try/except records np.nan when the attribute raises, modelled as
none. -/
structure GridOut where
  labels : List Int
  relativeValidity : Option ℚ
deriving DecidableEq, Repr

/-- One row of the assessment result frame. -/
structure AssessRow where
  min_cluster_size : Nat
  min_samples : Nat
  n_clusters : Nat
  noiseFrac : ℚ
  dbcv_score : Option ℚ
deriving DecidableEq, Repr

/-- assess_2d_parameters: param_grid is built by the two nested loops keeping
(mcs, ms) only when ms <= mcs, and every grid entry yields exactly one result
row whether or not the DBCV score is available. -/
def assess_2d_parameters (dfLen : Nat) (oracle : Nat → Nat → GridOut)
    (mcs_values ms_values : List Nat) : List AssessRow :=
  let param_grid := mcs_values.foldl (fun acc mcs =>
    ms_values.foldl (fun acc2 ms =>
      if ms ≤ mcs then acc2 ++ [(mcs, ms)] else acc2) acc) []
  param_grid.map fun p =>
    let o := oracle p.1 p.2
    { min_cluster_size := p.1
      min_samples := p.2
      n_clusters := n_clusters_of o.labels
      noiseFrac := (o.labels.count (-1) : ℚ) / (dfLen : ℚ)
      dbcv_score := o.relativeValidity }

/-- The rows the claim predicts: the pairs drawn from the two search lists in
nested-loop order that satisfy ms <= mcs, each summarised with the distinct
non-noise label count, the fraction of points labelled -1, and the DBCV score
(none when unavailable). -/
def assessRowsSpec (dfLen : Nat) (oracle : Nat → Nat → GridOut)
    (mcs_values ms_values : List Nat) : List AssessRow :=
  (mcs_values.flatMap fun mcs =>
    (ms_values.filter (fun ms => ms ≤ mcs)).map (fun ms => (mcs, ms))).map fun p =>
      { min_cluster_size := p.1
        min_samples := p.2
        n_clusters := ((oracle p.1 p.2).labels.toFinset.erase (-1)).card
        noiseFrac := ((oracle p.1 p.2).labels.count (-1) : ℚ) / (dfLen : ℚ)
        dbcv_score := (oracle p.1 p.2).relativeValidity }

theorem foldl_grid_eq (ms_values : List Nat) :
    ∀ (mcs_values : List Nat) (acc : List (Nat × Nat)),
      mcs_values.foldl (fun acc mcs =>
        ms_values.foldl (fun acc2 ms =>
          if ms ≤ mcs then acc2 ++ [(mcs, ms)] else acc2) acc) acc
      = acc ++ (mcs_values.flatMap fun mcs =>
          (ms_values.filter (fun ms => ms ≤ mcs)).map (fun ms => (mcs, ms))) := by
  have inner : ∀ (mcs : Nat) (acc : List (Nat × Nat)),
      ms_values.foldl (fun acc2 ms =>
        if ms ≤ mcs then acc2 ++ [(mcs, ms)] else acc2) acc
      = acc ++ (ms_values.filter (fun ms => ms ≤ mcs)).map (fun ms => (mcs, ms)) := by
    intro mcs
    induction ms_values with
    | nil => intro acc; simp
    | cons m rest ih =>
      intro acc
      rw [List.foldl_cons]
      by_cases h : m ≤ mcs
      · rw [if_pos h, ih, List.filter_cons_of_pos (by simpa using h)]
        simp
      · rw [if_neg h, ih, List.filter_cons_of_neg (by simpa using h)]
  intro mcs_values
  induction mcs_values with
  | nil => intro acc; simp
  | cons mcs rest ih =>
    intro acc
    rw [List.foldl_cons, inner mcs acc, ih, List.flatMap_cons, List.append_assoc]

/-- C7: assess_2d_parameters evaluates exactly the (mcs, ms) pairs from the
two search lists with ms <= mcs, in nested-loop order, producing one row per
pair even when the DBCV score is unavailable (then recorded as none); each
row's n_clusters excludes the noise label and noiseFrac is the fraction of
the dfLen points labelled -1. -/
theorem c7_assess_2d_parameters (dfLen : Nat) (oracle : Nat → Nat → GridOut)
    (mcs_values ms_values : List Nat) :
    assess_2d_parameters dfLen oracle mcs_values ms_values
      = assessRowsSpec dfLen oracle mcs_values ms_values := by
  unfold assess_2d_parameters assessRowsSpec
  rw [foldl_grid_eq ms_values mcs_values [], List.nil_append]
  apply List.map_congr_left
  intro p _
  rw [AssessRow.mk.injEq]
  exact ⟨rfl, rfl, n_clusters_of_eq_card_erase _, rfl, rfl⟩

/- ===================== C10: generate_previous_current_pairs =========== -/

/-- An utterance record: its role string plus an identifier standing for the
rest of the record (speaker, sentences, order). -/
structure Utt where
  role : String
  pid : Nat
deriving DecidableEq, Repr

/-- The pairing scan: while i < len(data) - 1, pair data[i] with data[i+1]
when their roles are Interviewer and Interviewee and advance by two,
otherwise advance by one. -/
def formPairs : List Utt → List (Utt × Utt)
  | [] => []
  | [_] => []
  | a :: b :: rest =>
    if a.role = "Interviewer" ∧ b.role = "Interviewee" then
      (a, b) :: formPairs rest
    else
      formPairs (b :: rest)

/-- One written pair file: its number (starting at 1), the previous pair
(none for the first file) and the current pair. -/
structure PairFile where
  pairNumber : Nat
  previous : Option (Utt × Utt)
  current : Utt × Utt
deriving DecidableEq, Repr

/-- generate_previous_current_pairs: form the pairs, then write one file per
pair with previous_utterances = pairs[idx-1] (null for the first), returning
the number of files written. -/
def generate_previous_current_pairs (data : List Utt) : List PairFile × Nat :=
  let pairs := formPairs data
  let files := pairs.enum.map fun ip =>
    { pairNumber := ip.1 + 1
      previous := if ip.1 = 0 then none else pairs[ip.1 - 1]?
      current := ip.2 }
  (files, files.length)

/-- The index list witnessing where each pair sits in the input: indices are
at least two apart (so the pairs are pairwise disjoint and in input order),
each pair is the items at consecutive indices with roles Interviewer then
Interviewee, and every first index leaves room for the second. -/
def PairsWitness (data : List Utt) (pairs : List (Utt × Utt))
    (idxs : List Nat) : Prop :=
  idxs.length = pairs.length
    ∧ List.Chain' (fun i j => i + 2 ≤ j) idxs
    ∧ ∀ k, k < idxs.length →
        ∃ i p, idxs[k]? = some i ∧ pairs[k]? = some p
          ∧ data[i]? = some p.1 ∧ data[i + 1]? = some p.2
          ∧ p.1.role = "Interviewer" ∧ p.2.role = "Interviewee"
          ∧ i + 1 < data.length

theorem formPairs_witness (data : List Utt) :
    ∃ idxs, PairsWitness data (formPairs data) idxs := by
  induction data using formPairs.induct with
  | case1 =>
    exact ⟨[], rfl, List.chain'_nil, fun k hk => absurd hk (by simp)⟩
  | case2 a =>
    exact ⟨[], rfl, List.chain'_nil, fun k hk => absurd hk (by simp)⟩
  | case3 a b rest hroles ih =>
    obtain ⟨idxs, hlen, hchain, hmem⟩ := ih
    refine ⟨0 :: idxs.map (fun i => i + 2), ?_, ?_, ?_⟩
    · simp [formPairs, hroles, hlen]
    · apply List.chain'_cons'.mpr
      constructor
      · intro j hj
        rcases List.mem_map.mp (List.mem_of_mem_head? hj) with ⟨i, _, hij⟩
        omega
      · exact List.chain'_map_of_chain' _ (fun h => by omega) hchain
    · intro k hk
      cases k with
      | zero =>
        refine ⟨0, (a, b), by simp, ?_, by simp, by simp, hroles.1, hroles.2, by simp⟩
        simp [formPairs, hroles]
      | succ k2 =>
        simp only [List.length_cons, List.length_map] at hk
        obtain ⟨i, p, hi, hp, h1, h2, hr1, hr2, hbound⟩ := hmem k2 (by omega)
        refine ⟨i + 2, p, ?_, ?_, ?_, ?_, hr1, hr2, ?_⟩
        · simp [hi]
        · simp [formPairs, hroles, hp]
        · simpa using h1
        · simpa using h2
        · simp only [List.length_cons]; omega
  | case4 a b rest hroles ih =>
    obtain ⟨idxs, hlen, hchain, hmem⟩ := ih
    refine ⟨idxs.map (fun i => i + 1), ?_, ?_, ?_⟩
    · simp only [List.length_map, hlen]
      simp [formPairs, hroles]
    · exact List.chain'_map_of_chain' _ (fun h => by omega) hchain
    · intro k hk
      simp only [List.length_map] at hk
      obtain ⟨i, p, hi, hp, h1, h2, hr1, hr2, hbound⟩ := hmem k hk
      refine ⟨i + 1, p, ?_, ?_, ?_, ?_, hr1, hr2, ?_⟩
      · simp [hi]
      · simp [formPairs, hroles, hp]
      · simpa using h1
      · simpa using h2
      · simp only [List.length_cons] at hbound ⊢; omega

/-- C10: the pairing scan yields pairs of an Interviewer item immediately
followed by an Interviewee item, pairwise disjoint and in input order, with
both members before the end of the input; file k has number k, current pair
k, and previous pair k-1 (none for the first); the returned count is the
number of pairs. -/
theorem c10_generate_previous_current_pairs (data : List Utt) :
    (∃ idxs, PairsWitness data (formPairs data) idxs)
    ∧ (generate_previous_current_pairs data).2 = (formPairs data).length
    ∧ ((generate_previous_current_pairs data).1.length = (formPairs data).length
      ∧ ∀ k, k < (formPairs data).length →
          ∃ f, (generate_previous_current_pairs data).1[k]? = some f
            ∧ f.pairNumber = k + 1
            ∧ (formPairs data)[k]? = some f.current
            ∧ f.previous = if k = 0 then none else (formPairs data)[k - 1]?) := by
  refine ⟨formPairs_witness data, by simp [generate_previous_current_pairs], ?_, ?_⟩
  · simp [generate_previous_current_pairs]
  · intro k hk
    have hget : (formPairs data)[k]? = some ((formPairs data).get ⟨k, hk⟩) :=
      List.getElem?_eq_getElem hk
    refine ⟨{ pairNumber := k + 1
              previous := if k = 0 then none else (formPairs data)[k - 1]?
              current := (formPairs data).get ⟨k, hk⟩ }, ?_, rfl, hget, rfl⟩
    simp only [generate_previous_current_pairs, List.getElem?_map, List.getElem?_enum]
    rw [hget]
    rfl

/-- Concrete input for the C10 witness: Interviewer, Interviewee,
Interviewee, Interviewer, Interviewee. -/
def dataC10 : List Utt :=
  [⟨"Interviewer", 0⟩, ⟨"Interviewee", 1⟩, ⟨"Interviewee", 2⟩,
   ⟨"Interviewer", 3⟩, ⟨"Interviewee", 4⟩]

/-- C10 witness: on the concrete transcript the theorem gives the count of
the two pairs formed, and the scan's output is as computed. -/
theorem c10_witness :
    (generate_previous_current_pairs dataC10).2 = (formPairs dataC10).length
      ∧ formPairs dataC10
        = [(⟨"Interviewer", 0⟩, ⟨"Interviewee", 1⟩),
           (⟨"Interviewer", 3⟩, ⟨"Interviewee", 4⟩)] :=
  ⟨(c10_generate_previous_current_pairs dataC10).2.1, by decide⟩

/- ===================== C5: reduce_dimensions ===================== -/

/-- Arithmetic mean of a column. -/
def colMean (col : List ℚ) : ℚ := col.sum / (col.length : ℚ)

/-- Population variance of a column (StandardScaler standardizes with the
biased variance, ddof = 0). -/
def colVar (col : List ℚ) : ℚ :=
  ((col.map (fun v => (v - colMean col) ^ 2)).sum) / (col.length : ℚ)

/-- Column j of the row-major reduced matrix XY. -/
def colAt (xy : List (List ℚ)) (j : Nat) : List ℚ :=
  xy.map (fun row => row.getD j 0)

/-- StandardScaler.fit_transform on the reduced matrix: every entry shifted
by its column mean and divided by its column standard deviation; because the
square root of the variance is irrational in general, the deviations are
passed in as the list sigma, pinned down in the theorems by
sigma_j ^ 2 = variance_j. -/
def standardScale (xy : List (List ℚ)) (sigma : List ℚ) : List (List ℚ) :=
  xy.map (fun row => row.enum.map
    (fun jv => (jv.2 - colMean (colAt xy jv.1)) / sigma.getD jv.1 1))

/-- The projection columns of the table; none while unassigned. -/
structure ProjDF where
  x : Option (List ℚ)
  y : Option (List ℚ)
  x_norm : Option (List ℚ)
  y_norm : Option (List ℚ)
deriving DecidableEq, Repr

/-- reduce_dimensions: XY is the external reducer's output (two or more
components per row); the df gains x, y (the first two components) and
x_norm, y_norm (the first two components of the standardized matrix). -/
def reduce_dimensions (df : ProjDF) (xy : List (List ℚ)) (sigma : List ℚ) :
    ProjDF :=
  { df with
    x := some (colAt xy 0)
    y := some (colAt xy 1)
    x_norm := some (colAt (standardScale xy sigma) 0)
    y_norm := some (colAt (standardScale xy sigma) 1) }

theorem sum_map_sub_mul (col : List ℚ) (m c : ℚ) :
    (col.map (fun v => (v - m) * c)).sum = (col.sum - (col.length : ℚ) * m) * c := by
  induction col with
  | nil => simp
  | cons a t ih =>
    simp only [List.map_cons, List.sum_cons, List.length_cons, ih]
    push_cast
    ring

theorem colMean_standardized (col : List ℚ) (s : ℚ) (hcol : col ≠ []) :
    colMean (col.map (fun v => (v - colMean col) / s)) = 0 := by
  have hn : (col.length : ℚ) ≠ 0 :=
    Nat.cast_ne_zero.mpr (List.length_pos.mpr hcol).ne'
  have hsum : (col.map (fun v => (v - colMean col) / s)).sum
      = (col.sum - (col.length : ℚ) * colMean col) * s⁻¹ := by
    have h := sum_map_sub_mul col (colMean col) s⁻¹
    simpa [div_eq_mul_inv] using h
  have h2 : (col.length : ℚ) * colMean col = col.sum := by
    unfold colMean
    field_simp
  rw [colMean, List.length_map, hsum, h2, sub_self, zero_mul, zero_div]

theorem sum_map_sq_div (col : List ℚ) (m s : ℚ) :
    (col.map (fun v => ((v - m) / s) ^ 2)).sum
      = (col.map (fun v => (v - m) ^ 2)).sum / s ^ 2 := by
  induction col with
  | nil => simp
  | cons a t ih =>
    simp only [List.map_cons, List.sum_cons, ih]
    rw [div_pow, add_div]

theorem colVar_standardized (col : List ℚ) (s : ℚ) (hcol : col ≠ [])
    (hs : s ≠ 0) (hvar : s ^ 2 = colVar col) :
    colVar (col.map (fun v => (v - colMean col) / s)) = 1 := by
  have hn : (col.length : ℚ) ≠ 0 :=
    Nat.cast_ne_zero.mpr (List.length_pos.mpr hcol).ne'
  have hS : (col.map (fun v => (v - colMean col) ^ 2)).sum ≠ 0 := by
    intro h0
    apply hs
    have hv0 : colVar col = 0 := by
      unfold colVar
      rw [h0]
      simp
    have h2 : s ^ 2 = 0 := by rw [hvar, hv0]
    exact (pow_eq_zero_iff (two_ne_zero)).mp h2
  have hmean := colMean_standardized col s hcol
  unfold colVar
  rw [hmean, List.length_map, List.map_map]
  have hcomp : ((fun w : ℚ => (w - 0) ^ 2) ∘ (fun v => (v - colMean col) / s))
      = fun v => ((v - colMean col) / s) ^ 2 := by
    funext v
    simp
  rw [hcomp, sum_map_sq_div, hvar]
  unfold colVar
  field_simp

theorem colAt_standardScale (xy : List (List ℚ)) (sigma : List ℚ) (d j : Nat)
    (hw : ∀ row ∈ xy, row.length = d) (hj : j < d) :
    colAt (standardScale xy sigma) j
      = (colAt xy j).map (fun v => (v - colMean (colAt xy j)) / sigma.getD j 1) := by
  unfold standardScale
  unfold colAt
  rw [List.map_map, List.map_map]
  apply List.map_congr_left
  intro row hrow
  have hlen : j < row.length := by
    rw [hw row hrow]
    exact hj
  simp [List.getD_eq_getElem?_getD, List.getElem?_map, List.getElem?_enum,
    List.getElem?_eq_getElem hlen]

/-- C5: after reduce_dimensions, columns x and y hold the first two
components of the reduced embedding, x_norm and y_norm the first two
components of its standardization, every standardized column is the
mean-shifted, deviation-scaled original column, and it has zero mean and
unit variance over the table; d, the number of reduced components, may be
any number at least two. -/
theorem c5_reduce_dimensions (df : ProjDF) (xy : List (List ℚ))
    (sigma : List ℚ) (d : Nat) (hxy : xy ≠ [])
    (hw : ∀ row ∈ xy, row.length = d)
    (hs : ∀ j, j < d → sigma.getD j 1 ≠ 0
        ∧ (sigma.getD j 1) ^ 2 = colVar (colAt xy j)) :
    (reduce_dimensions df xy sigma).x = some (colAt xy 0)
    ∧ (reduce_dimensions df xy sigma).y = some (colAt xy 1)
    ∧ (reduce_dimensions df xy sigma).x_norm
        = some (colAt (standardScale xy sigma) 0)
    ∧ (reduce_dimensions df xy sigma).y_norm
        = some (colAt (standardScale xy sigma) 1)
    ∧ (∀ j, j < d → colAt (standardScale xy sigma) j
        = (colAt xy j).map
            (fun v => (v - colMean (colAt xy j)) / sigma.getD j 1))
    ∧ (∀ j, j < d → colMean (colAt (standardScale xy sigma) j) = 0
        ∧ colVar (colAt (standardScale xy sigma) j) = 1) := by
  have hcolne : ∀ j : Nat, colAt xy j ≠ [] := by
    intro j h
    apply hxy
    unfold colAt at h
    exact List.map_eq_nil_iff.mp h
  refine ⟨rfl, rfl, rfl, rfl, ?_, ?_⟩
  · intro j hj
    exact colAt_standardScale xy sigma d j hw hj
  · intro j hj
    rw [colAt_standardScale xy sigma d j hw hj]
    exact ⟨colMean_standardized (colAt xy j) (sigma.getD j 1) (hcolne j),
      colVar_standardized (colAt xy j) (sigma.getD j 1) (hcolne j)
        (hs j hj).1 (hs j hj).2⟩

/-- Reduced matrix for the C5 witness. -/
def xyC5 : List (List ℚ) := [[0, 0], [2, 2]]

/-- Standard deviations of xyC5's columns (both exactly 1). -/
def sigmaC5 : List ℚ := [1, 1]

/-- C5 witness: on the concrete two-row, two-component reduction the
standardized first column has zero mean and unit variance. -/
theorem c5_witness :
    colMean (colAt (standardScale xyC5 sigmaC5) 0) = 0
      ∧ colVar (colAt (standardScale xyC5 sigmaC5) 0) = 1 :=
  (c5_reduce_dimensions
      { x := none, y := none, x_norm := none, y_norm := none }
      xyC5 sigmaC5 2 (by decide) (by decide)
      (by
        intro j hj
        have hj2 : j = 0 ∨ j = 1 := by omega
        rcases hj2 with h | h
        · rw [h]
          constructor
          · norm_num [sigmaC5]
          · norm_num [sigmaC5, xyC5, colVar, colAt, colMean]
        · rw [h]
          constructor
          · norm_num [sigmaC5]
          · norm_num [sigmaC5, xyC5, colVar, colAt, colMean])).2.2.2.2.2 0 (by decide)

/- ========== C2 and C3: condensed tree sizes and the HTML hierarchy ===== -/

/-- One row of the condensed tree frame returned by
clusterer.condensed_tree_.to_pandas(): parent and child node ids, the lambda
value of the split and the child's size. -/
structure TreeEdge where
  parent : Int
  child : Int
  lambdaVal : ℚ
  child_size : Nat
deriving DecidableEq, Repr

/-- parent_children: the children of a node in row order (the groupby keeps
the order of rows within a group). -/
def childrenOf (t : List TreeEdge) (p : Int) : List Int :=
  (t.filter (fun e => e.parent = p)).map (fun e => e.child)

/-- node_sizes_direct, built with dict(zip(child, child_size)): the last row
for a child wins. -/
def directSize (t : List TreeEdge) (n : Int) : Option Nat :=
  (t.reverse.find? (fun e => e.child = n)).map (fun e => e.child_size)

/-- node_data's lambda_val lookup with its 0 default. -/
def lambdaOf (t : List TreeEdge) (n : Int) : ℚ :=
  ((t.reverse.find? (fun e => e.child = n)).map (fun e => e.lambdaVal)).getD 0

/-- get_node_size with explicit fuel: a node's recorded child_size if it
occurs as a child, else the sum of its children's sizes if it occurs as a
parent, else 1.  The source recursion only ever descends one level because
every child occurring in the tree has a direct size, so fuel 2 already
computes the fixpoint (established in the theorems below). -/
def getNodeSizeAux (t : List TreeEdge) : Nat → Int → Nat
  | 0, _ => 1
  | fuel + 1, n =>
    match directSize t n with
    | some s => s
    | none =>
      if childrenOf t n = [] then 1
      else ((childrenOf t n).map (getNodeSizeAux t fuel)).sum

/-- get_node_size of build_hierarchy_html. -/
def get_node_size (t : List TreeEdge) (n : Int) : Nat := getNodeSizeAux t 2 n

/-- Every member of a children list occurs as a child in the tree. -/
theorem mem_childrenOf (t : List TreeEdge) (p c : Int)
    (h : c ∈ childrenOf t p) : ∃ e ∈ t, e.child = c := by
  unfold childrenOf at h
  rcases List.mem_map.mp h with ⟨e, he, hec⟩
  exact ⟨e, List.mem_of_mem_filter he, hec⟩

/-- A node occurring as a child has a direct size. -/
theorem directSize_isSome_iff (t : List TreeEdge) (n : Int) :
    (directSize t n).isSome ↔ ∃ e ∈ t, e.child = n := by
  unfold directSize
  have hmap : ∀ o : Option TreeEdge,
      (o.map (fun e => e.child_size)).isSome = o.isSome := by
    intro o
    cases o <;> rfl
  rw [hmap, List.find?_isSome]
  constructor
  · rintro ⟨e, he, hc⟩
    exact ⟨e, List.mem_reverse.mp he, by simpa using hc⟩
  · rintro ⟨e, he, hc⟩
    exact ⟨e, List.mem_reverse.mpr he, by simpa using hc⟩

/-- At any positive fuel, a node with a direct size evaluates to it. -/
theorem getNodeSizeAux_direct (t : List TreeEdge) (n : Int) (s : Nat)
    (h : directSize t n = some s) (fuel : Nat) :
    getNodeSizeAux t (fuel + 1) n = s := by
  unfold getNodeSizeAux
  rw [h]

/-- At any positive fuel, a node with no direct size but with children
evaluates to the sum over its children at one less fuel. -/
theorem getNodeSizeAux_parent (t : List TreeEdge) (n : Int) (fuel : Nat)
    (hdir : directSize t n = none) (hch : childrenOf t n ≠ []) :
    getNodeSizeAux t (fuel + 1) n
      = ((childrenOf t n).map (getNodeSizeAux t fuel)).sum := by
  unfold getNodeSizeAux
  simp only [hdir, if_neg hch]

/-- The rendered node annotation: flat cluster label, its color, and the
keyword preview (empty when the cluster has no recorded keywords). -/
structure NodeAnnot where
  label : Int
  color : String
  keywordsPreview : List (List Char)
deriving DecidableEq, Repr

/-- One rendered li of the hierarchy tree: node id, displayed size and
lambda, the cluster annotation when the prediction-data cluster map points
at this node, and the rendered children (empty unless some child has size
above one). -/
structure RNode where
  node : Int
  size : Nat
  lambdaVal : ℚ
  annot : Option NodeAnnot
  children : List RNode

/-- The dict comprehension {label: node for node, label in
cluster_map.items()}: keys appear in first-occurrence order and a repeated
key keeps its position while taking the last value. -/
def dictInsert (m : List (Int × Int)) (k v : Int) : List (Int × Int) :=
  if m.any (fun q => q.1 = k) then
    m.map (fun q => if q.1 = k then (k, v) else q)
  else m ++ [(k, v)]

/-- cluster_id_to_node: the inversion of the prediction data's cluster_map
(given as (node, label) pairs in dict iteration order). -/
def cluster_id_to_node (cm : List (Int × Int)) : List (Int × Int) :=
  cm.foldl (fun m p => dictInsert m p.2 p.1) []

/-- final_cluster_label: the first label in the inverted dict whose node is
the given one (the next(...) generator over cluster_id_to_node.items()). -/
def final_cluster_label (cm : List (Int × Int)) (n : Int) : Option Int :=
  ((cluster_id_to_node cm).find? (fun q => q.2 = n)).map (fun q => q.1)

/-- self.color_map.get(label, '#6c757d'). -/
def colorOf (colors : List (Int × String)) (label : Int) : String :=
  ((colors.find? (fun q => q.1 = label)).map (fun q => q.2)).getD "#6c757d"

/-- self.cluster_descriptions.get(label, {}).get('keywords', []). -/
def keywordsOf (descs : List (Int × List (List Char))) (label : Int) : List (List Char) :=
  ((descs.find? (fun q => q.1 = label)).map (fun q => q.2)).getD []

/-- The cluster annotation attached to a rendered node: present exactly when
final_cluster_label finds a label, with the label's color and the first
three keywords (the keywords[:3] preview, absent when there are none). -/
def nodeAnnot (cm : List (Int × Int)) (colors : List (Int × String))
    (descs : List (Int × List (List Char))) (n : Int) : Option NodeAnnot :=
  (final_cluster_label cm n).map (fun label =>
    { label := label
      color := colorOf colors label
      keywordsPreview := (keywordsOf descs label).take 3 })

/-- build_hierarchy_html with explicit fuel: returns none (the empty string)
when the node's size is at most 1, else the li for the node; children are
rendered only when some child has size above one. -/
def build_hierarchy_html (t : List TreeEdge) (cm : List (Int × Int))
    (colors : List (Int × String)) (descs : List (Int × List (List Char))) :
    Nat → Int → Option RNode
  | 0, _ => none
  | fuel + 1, n =>
    if get_node_size t n ≤ 1 then none
    else
      some
        { node := n
          size := get_node_size t n
          lambdaVal := lambdaOf t n
          annot := nodeAnnot cm colors descs n
          children :=
            if (childrenOf t n).any (fun c => 1 < get_node_size t c) then
              (childrenOf t n).filterMap
                (build_hierarchy_html t cm colors descs fuel)
            else [] }

instance : IsTotal Int (fun a b => b ≤ a) := ⟨fun a b => le_total b a⟩

instance : IsTrans Int (fun a b => b ≤ a) := ⟨fun _ _ _ h1 h2 => le_trans h2 h1⟩

/-- sorted(set(parents) - set(children), reverse=True). -/
def root_nodes (t : List TreeEdge) : List Int :=
  List.insertionSort (fun a b => b ≤ a)
    (((t.map (fun e => e.parent)).dedup).filter
      (fun p => !(t.any (fun e => e.child = p))))

/-- The rendered top level of the report's hierarchy tree. -/
def hierarchy_html (t : List TreeEdge) (cm : List (Int × Int))
    (colors : List (Int × String)) (descs : List (Int × List (List Char))) :
    List RNode :=
  (root_nodes t).filterMap
    (build_hierarchy_html t cm colors descs (t.length + 1))

/-- Rendering a list of nodes keeps exactly those of size above one, as
themselves. -/
theorem filterMap_build_nodes (t : List TreeEdge) (cm : List (Int × Int))
    (colors : List (Int × String)) (descs : List (Int × List (List Char)))
    (fuel : Nat) (l : List Int) :
    ((l.filterMap (build_hierarchy_html t cm colors descs (fuel + 1))).map
        (fun r => r.node))
      = l.filter (fun n => decide (1 < get_node_size t n)) := by
  induction l with
  | nil => rfl
  | cons n ns ih =>
    rw [List.filterMap_cons, List.filter_cons]
    by_cases h : 1 < get_node_size t n
    · have hb : build_hierarchy_html t cm colors descs (fuel + 1) n
          = some
            { node := n
              size := get_node_size t n
              lambdaVal := lambdaOf t n
              annot := nodeAnnot cm colors descs n
              children :=
                if (childrenOf t n).any (fun c => 1 < get_node_size t c) then
                  (childrenOf t n).filterMap
                    (build_hierarchy_html t cm colors descs fuel)
                else [] } := by
        unfold build_hierarchy_html
        rw [if_neg (by omega)]
      rw [hb]
      simp only [List.map_cons, ih, decide_eq_true h, if_pos]
    · have hb : build_hierarchy_html t cm colors descs (fuel + 1) n = none := by
        unfold build_hierarchy_html
        rw [if_pos (by omega)]
      rw [hb, decide_eq_false h]
      simpa using ih

/-- C2: get_node_size satisfies the claimed recurrence — the recorded
child_size for a node occurring as a child, the sum of the children's
computed sizes for a node occurring only as a parent, 1 otherwise; a node is
rendered exactly when its computed size is above 1; and the top-level nodes
processed are exactly those occurring as a parent but never as a child, in
descending order, those of size above one being rendered. -/
theorem c2_node_sizes_and_top_level (t : List TreeEdge) (cm : List (Int × Int))
    (colors : List (Int × String)) (descs : List (Int × List (List Char))) :
    (∀ n s, directSize t n = some s → get_node_size t n = s)
    ∧ (∀ n, directSize t n = none → childrenOf t n ≠ [] →
        get_node_size t n = ((childrenOf t n).map (get_node_size t)).sum)
    ∧ (∀ n, directSize t n = none → childrenOf t n = [] →
        get_node_size t n = 1)
    ∧ (∀ n, (directSize t n).isSome ↔ ∃ e ∈ t, e.child = n)
    ∧ (∀ n fuel, (build_hierarchy_html t cm colors descs (fuel + 1) n).isSome
        ↔ 1 < get_node_size t n)
    ∧ (∀ n, n ∈ root_nodes t
        ↔ (∃ e ∈ t, e.parent = n) ∧ ¬ ∃ e ∈ t, e.child = n)
    ∧ List.Sorted (fun a b => b ≤ a) (root_nodes t)
    ∧ (hierarchy_html t cm colors descs).map (fun r => r.node)
        = (root_nodes t).filter (fun n => decide (1 < get_node_size t n)) := by
  refine ⟨?_, ?_, ?_, directSize_isSome_iff t, ?_, ?_, ?_, ?_⟩
  · intro n s h
    exact getNodeSizeAux_direct t n s h 1
  · intro n hdir hch
    unfold get_node_size
    rw [getNodeSizeAux_parent t n 1 hdir hch]
    apply congrArg List.sum
    apply List.map_congr_left
    intro c hc
    obtain ⟨e, he, hec⟩ := mem_childrenOf t n c hc
    have hsome : (directSize t c).isSome :=
      (directSize_isSome_iff t c).mpr ⟨e, he, hec⟩
    obtain ⟨s, hs⟩ := Option.isSome_iff_exists.mp hsome
    rw [getNodeSizeAux_direct t c s hs 0]
    exact (getNodeSizeAux_direct t c s hs 1).symm
  · intro n hdir hch
    unfold get_node_size getNodeSizeAux
    simp only [hdir, if_pos hch]
  · intro n fuel
    constructor
    · intro h
      by_contra hle
      unfold build_hierarchy_html at h
      rw [if_pos (by omega)] at h
      simp at h
    · intro h
      unfold build_hierarchy_html
      rw [if_neg (by omega)]
      simp
  · intro n
    unfold root_nodes
    rw [(List.perm_insertionSort (fun a b => b ≤ a) _).mem_iff]
    constructor
    · intro h
      rcases List.mem_filter.mp h with ⟨hmem, hfil⟩
      rcases List.mem_map.mp (List.mem_dedup.mp hmem) with ⟨e, he, hep⟩
      refine ⟨⟨e, he, hep⟩, ?_⟩
      intro hc
      rcases hc with ⟨e2, he2, hec⟩
      have : t.any (fun e => e.child = n) = true :=
        List.any_eq_true.mpr ⟨e2, he2, by simpa using hec⟩
      simp [this] at hfil
    · rintro ⟨⟨e, he, hep⟩, hnc⟩
      apply List.mem_filter.mpr
      refine ⟨List.mem_dedup.mpr (List.mem_map.mpr ⟨e, he, hep⟩), ?_⟩
      have hfalse : t.any (fun e => decide (e.child = n)) = false := by
        rw [List.any_eq_false]
        intro e2 he2
        simp only [decide_eq_true_eq]
        intro hec
        exact hnc ⟨e2, he2, hec⟩
      simp [hfalse]
  · exact List.sorted_insertionSort (fun a b => b ≤ a) _
  · exact filterMap_build_nodes t cm colors descs t.length (root_nodes t)

theorem foldl_dictInsert (cm : List (Int × Int)) :
    ∀ acc : List (Int × Int),
      (∀ p ∈ cm, ∀ q ∈ acc, q.1 ≠ p.2) →
      (cm.map (fun p => p.2)).Nodup →
      cm.foldl (fun m p => dictInsert m p.2 p.1) acc
        = acc ++ cm.map (fun p => (p.2, p.1)) := by
  induction cm with
  | nil => intro acc _ _; simp
  | cons p rest ih =>
    intro acc hdisj hnodup
    rw [List.foldl_cons]
    have hnot : ¬ (acc.any (fun q => q.1 = p.2) = true) := by
      rw [List.any_eq_true]
      rintro ⟨q, hq, hq2⟩
      exact hdisj p (List.mem_cons_self p rest) q hq (by simpa using hq2)
    have hstep : dictInsert acc p.2 p.1 = acc ++ [(p.2, p.1)] := by
      unfold dictInsert
      rw [if_neg hnot]
    have hp2 : p.2 ∉ rest.map (fun r => r.2) := by
      rw [List.map_cons, List.nodup_cons] at hnodup
      exact hnodup.1
    have hnodup2 : (rest.map (fun r => r.2)).Nodup := by
      rw [List.map_cons, List.nodup_cons] at hnodup
      exact hnodup.2
    have hd2 : ∀ r ∈ rest, ∀ q ∈ acc ++ [(p.2, p.1)], q.1 ≠ r.2 := by
      intro r hr q hq
      rcases List.mem_append.mp hq with h | h
      · exact hdisj r (List.mem_cons_of_mem p hr) q h
      · have hq1 : q = (p.2, p.1) := by simpa using h
        rw [hq1]
        intro hcontra
        have hcontra2 : p.2 = r.2 := hcontra
        apply hp2
        rw [hcontra2]
        exact List.mem_map.mpr ⟨r, hr, rfl⟩
    rw [hstep, ih (acc ++ [(p.2, p.1)]) hd2 hnodup2]
    simp

theorem cluster_id_to_node_eq (cm : List (Int × Int))
    (h : (cm.map (fun p => p.2)).Nodup) :
    cluster_id_to_node cm = cm.map (fun p => (p.2, p.1)) := by
  unfold cluster_id_to_node
  rw [foldl_dictInsert cm [] (by intro p _ q hq; simp at hq) h]
  simp

theorem final_cluster_label_eq (cm : List (Int × Int)) (n : Int)
    (h : (cm.map (fun p => p.2)).Nodup) :
    final_cluster_label cm n
      = (cm.find? (fun p => p.1 = n)).map (fun p => p.2) := by
  unfold final_cluster_label
  rw [cluster_id_to_node_eq cm h, List.find?_map, Option.map_map]
  rfl

theorem final_cluster_label_some_iff (cm : List (Int × Int)) (n L : Int)
    (hl : (cm.map (fun p => p.2)).Nodup) (hn : (cm.map (fun p => p.1)).Nodup) :
    final_cluster_label cm n = some L ↔ (n, L) ∈ cm := by
  rw [final_cluster_label_eq cm n hl]
  constructor
  · intro h
    rcases Option.map_eq_some'.mp h with ⟨q, hq, hq2⟩
    have hqmem := List.mem_of_find?_eq_some hq
    have hq1 : q.1 = n := by simpa using List.find?_some hq
    have hqnl : (n, L) = q := by
      cases q
      simp only at hq1 hq2
      rw [hq1, hq2]
    rw [hqnl]
    exact hqmem
  · intro h
    have hsome : (cm.find? (fun p => p.1 = n)).isSome :=
      List.find?_isSome.mpr ⟨(n, L), h, by simp⟩
    obtain ⟨q, hq⟩ := Option.isSome_iff_exists.mp hsome
    have hqmem := List.mem_of_find?_eq_some hq
    have hq1 : q.1 = n := by simpa using List.find?_some hq
    have hqeq : q = (n, L) :=
      List.inj_on_of_nodup_map hn hqmem h (by simpa using hq1)
    rw [hq, hqeq]
    rfl

theorem final_cluster_label_none_iff (cm : List (Int × Int)) (n : Int)
    (hl : (cm.map (fun p => p.2)).Nodup) :
    final_cluster_label cm n = none ↔ ∀ L, (n, L) ∉ cm := by
  rw [final_cluster_label_eq cm n hl, Option.map_eq_none', List.find?_eq_none]
  constructor
  · intro h L hmem
    have := h (n, L) hmem
    simp at this
  · intro h p hp
    simp only [decide_eq_true_eq]
    intro hp1
    have hpeq : p = (n, p.2) := by
      cases p
      simp only at hp1
      rw [hp1]
    apply h p.2
    rw [← hpeq]
    exact hp

/-- C3: a rendered node of the hierarchy carries a cluster annotation with
label L exactly when the prediction data's cluster map associates L with
that node; every node the map does not associate with a label gets no
annotation; an annotation carries the label's color from the color map and
a preview of the label's first three keywords. -/
theorem c3_cluster_annotations (t : List TreeEdge) (cm : List (Int × Int))
    (colors : List (Int × String)) (descs : List (Int × List (List Char)))
    (hl : (cm.map (fun p => p.2)).Nodup) (hn : (cm.map (fun p => p.1)).Nodup) :
    ∀ fuel n r, build_hierarchy_html t cm colors descs fuel n = some r →
      (∀ L, r.annot.map (fun a => a.label) = some L ↔ (n, L) ∈ cm)
      ∧ (r.annot = none ↔ ∀ L, (n, L) ∉ cm)
      ∧ ∀ a, r.annot = some a →
          a.color = colorOf colors a.label
          ∧ a.keywordsPreview = (keywordsOf descs a.label).take 3 := by
  intro fuel n r hr
  cases fuel with
  | zero => exact absurd hr (by simp [build_hierarchy_html])
  | succ f =>
    unfold build_hierarchy_html at hr
    by_cases hs : get_node_size t n ≤ 1
    · rw [if_pos hs] at hr
      exact absurd hr (by simp)
    · rw [if_neg hs] at hr
      have hannot : r.annot = nodeAnnot cm colors descs n := by
        have h := Option.some.inj hr
        rw [← h]
      refine ⟨?_, ?_, ?_⟩
      · intro L
        rw [hannot]
        unfold nodeAnnot
        cases hf : final_cluster_label cm n with
        | none =>
          simp only [hf, Option.map_none']
          constructor
          · intro h
            exact absurd h (by simp)
          · intro h
            have h2 := (final_cluster_label_some_iff cm n L hl hn).mpr h
            rw [hf] at h2
            exact absurd h2 (by simp)
        | some lab =>
          simp only [hf, Option.map_some']
          constructor
          · intro h
            have hlabL : lab = L := by simpa using h
            rw [← hlabL]
            exact (final_cluster_label_some_iff cm n lab hl hn).mp hf
          · intro h
            have h2 := (final_cluster_label_some_iff cm n L hl hn).mpr h
            rw [hf] at h2
            have hlabL : lab = L := Option.some.inj h2
            rw [hlabL]
      · rw [hannot]
        unfold nodeAnnot
        rw [Option.map_eq_none']
        exact final_cluster_label_none_iff cm n hl
      · intro a ha
        rw [hannot] at ha
        unfold nodeAnnot at ha
        rcases Option.map_eq_some'.mp ha with ⟨lab, _, hmk⟩
        rw [← hmk]
        exact ⟨rfl, rfl⟩

/-- Condensed tree for the C2 and C3 witnesses: a single edge from parent 1
to child 0 of size 2. -/
def tW : List TreeEdge :=
  [{ parent := 1, child := 0, lambdaVal := 1, child_size := 2 }]

/-- Cluster map for the C3 witness: tree node 1 carries flat cluster 7. -/
def cmW : List (Int × Int) := [(1, 7)]

/-- C2 witness: on the concrete one-edge tree, the theorem computes child
node 0's size as its recorded child_size 2, and the root 1 (a parent that is
never a child, of size 2) is the only rendered top-level node. -/
theorem c2_witness :
    get_node_size tW 0 = 2
      ∧ (hierarchy_html tW cmW [] []).map (fun r => r.node)
          = (root_nodes tW).filter (fun n => decide (1 < get_node_size tW n)) :=
  ⟨(c2_node_sizes_and_top_level tW cmW [] []).1 0 2 (by rfl),
    (c2_node_sizes_and_top_level tW cmW [] []).2.2.2.2.2.2.2⟩

/-- The li rendered for the root of tW. -/
def rW : RNode :=
  { node := 1, size := 2, lambdaVal := 0
    annot := some { label := 7, color := "#6c757d", keywordsPreview := [] }
    children := [{ node := 0, size := 2, lambdaVal := 1, annot := none, children := [] }] }

/-- C3 witness: on the concrete tree and cluster map, the root's rendered
node is annotated with cluster 7 exactly as the cluster map dictates. -/
theorem c3_witness :
    rW.annot.map (fun a => a.label) = some 7 :=
  ((c3_cluster_annotations tW cmW [] [] (by decide) (by decide) 2 1 rW
      (by rfl)).1 7).mpr (by decide)

/- ===================== C4: extract_cluster_keywords ================== -/

/-- One row of the table as extract_cluster_keywords reads it: the text
column (claim_text resp. predicate_text), the cluster label and the
membership probability; rid stands for the rest of the row. -/
structure KRow where
  rid : Nat
  text : List Char
  cluster : Int
  probability : ℚ
deriving DecidableEq, Repr

/-- Python regex whitespace over the ASCII repertoire. -/
def isSpacePy (c : Char) : Bool :=
  c == ' ' || c == '\t' || c == '\n' || c == '\r' || c == '\x0b' || c == '\x0c'

/-- Python regex word characters, modelled over ASCII letters, digits and
underscore together with the CJK range the cleaning regex keeps. -/
def isWordCharPy (c : Char) : Bool :=
  (decide ('a' ≤ c) && decide (c ≤ 'z'))
  || (decide ('A' ≤ c) && decide (c ≤ 'Z'))
  || (decide ('0' ≤ c) && decide (c ≤ '9'))
  || c == '_'
  || (decide ('一' ≤ c) && decide (c ≤ '龥'))

/-- text.lower() followed by substituting every character outside
word/whitespace/CJK with a space. -/
def cleanText (text : List Char) : List Char :=
  (text.map Char.toLower).map
    (fun c => if isWordCharPy c || isSpacePy c then c else ' ')

/-- Python str.split(): split on whitespace runs, dropping empty pieces. -/
def splitWsAux : List Char → List Char → List (List Char)
  | [], cur => if cur = [] then [] else [cur.reverse]
  | c :: rest, cur =>
    if isSpacePy c then
      if cur = [] then splitWsAux rest []
      else cur.reverse :: splitWsAux rest []
    else splitWsAux rest (c :: cur)

def splitWs (s : List Char) : List (List Char) := splitWsAux s []

/-- Python str.isdigit over ASCII: nonempty and all digits. -/
def isDigitStr (w : List Char) : Bool :=
  !w.isEmpty && w.all (fun c => decide ('0' ≤ c) && decide (c ≤ '9'))

/-- The rows of one cluster, in table order. -/
def clusterRows (df : List KRow) (cid : Int) : List KRow :=
  df.filter (fun r => r.cluster = cid)

/-- The words counted for a cluster in Claim Clustering_Report.py: cleaned,
split, and kept only when strictly longer than min_word_length. -/
def clusterWords (df : List KRow) (cid : Int) (m : Nat) : List (List Char) :=
  (clusterRows df cid).flatMap
    (fun r => (splitWs (cleanText r.text)).filter (fun w => m < w.length))

/-- The words counted in Predicate with WordNet.py: as clusterWords but
also dropping purely numeric tokens (the extra `not w.isdigit()`). -/
def clusterWordsWN (df : List KRow) (cid : Int) (m : Nat) : List (List Char) :=
  (clusterRows df cid).flatMap
    (fun r => (splitWs (cleanText r.text)).filter
      (fun w => decide (m < w.length) && !isDigitStr w))

/-- One step of collections.Counter: bump an existing entry or append a new
one (Counter keeps first-occurrence order of keys). -/
def countStep (acc : List (List Char × Nat)) (w : List Char) :
    List (List Char × Nat) :=
  if acc.any (fun p => p.1 = w) then
    acc.map (fun p => if p.1 = w then (p.1, p.2 + 1) else p)
  else acc ++ [(w, 1)]

/-- Counter(words) as an ordered association list. -/
def countWords (ws : List (List Char)) : List (List Char × Nat) :=
  ws.foldl countStep []

instance : IsTotal (List Char × Nat) (fun a b => b.2 ≤ a.2) :=
  ⟨fun a b => Nat.le_total b.2 a.2⟩

instance : IsTrans (List Char × Nat) (fun a b => b.2 ≤ a.2) :=
  ⟨fun _ _ _ h1 h2 => le_trans h2 h1⟩

/-- Counter.most_common's sort: by count descending, stable (insertion sort
places an earlier item before later items of equal count). -/
def sortByCountDesc (l : List (List Char × Nat)) : List (List Char × Nat) :=
  List.insertionSort (fun a b => b.2 ≤ a.2) l

instance : IsTotal KRow (fun a b => b.probability ≤ a.probability) :=
  ⟨fun a b => le_total b.probability a.probability⟩

instance : IsTrans KRow (fun a b => b.probability ≤ a.probability) :=
  ⟨fun _ _ _ h1 h2 => le_trans h2 h1⟩

/-- sort_values(by='probability', ascending=False); pandas does not fix the
order of ties, modelled by an insertion sort. -/
def sortByProbDesc (rows : List KRow) : List KRow :=
  List.insertionSort (fun a b => b.probability ≤ a.probability) rows

/-- sorted(df["cluster"].unique()). -/
def sortedClusters (df : List KRow) : List Int :=
  List.insertionSort (fun a b => a ≤ b) ((df.map (fun r => r.cluster)).dedup)

/-- The cluster descriptor for one cluster id. -/
structure ClusterDesc where
  keywords : List (List Char)
  size : Nat
  top_words_with_freq : List (List Char × Nat)
  sample_rows : List KRow
deriving DecidableEq, Repr

/-- The loop body of extract_cluster_keywords in Claim Clustering_Report.py:
keywords are the n_terms most common words, size the cluster row count, and
sample_rows the top five rows by probability. -/
def descFor (df : List KRow) (n m : Nat) (cid : Int) : ClusterDesc :=
  { keywords := ((sortByCountDesc (countWords (clusterWords df cid m))).take n).map
      (fun p => p.1)
    size := (clusterRows df cid).length
    top_words_with_freq := (sortByCountDesc (countWords (clusterWords df cid m))).take 20
    sample_rows := (sortByProbDesc (clusterRows df cid)).take 5 }

/-- extract_cluster_keywords of Claim Clustering_Report.py: one descriptor
per sorted distinct cluster id, skipping the noise sentinel -1. -/
def extract_cluster_keywords (df : List KRow) (n m : Nat) :
    List (Int × ClusterDesc) :=
  (sortedClusters df).filterMap
    (fun cid => if cid = -1 then none else some (cid, descFor df n m cid))

/-- The loop body of extract_cluster_keywords in Predicate with WordNet.py:
identical except that purely numeric words are not counted. -/
def descForWN (df : List KRow) (n m : Nat) (cid : Int) : ClusterDesc :=
  { keywords := ((sortByCountDesc (countWords (clusterWordsWN df cid m))).take n).map
      (fun p => p.1)
    size := (clusterRows df cid).length
    top_words_with_freq := (sortByCountDesc (countWords (clusterWordsWN df cid m))).take 20
    sample_rows := (sortByProbDesc (clusterRows df cid)).take 5 }

/-- extract_cluster_keywords of Predicate with WordNet.py. -/
def extract_cluster_keywords_wn (df : List KRow) (n m : Nat) :
    List (Int × ClusterDesc) :=
  (sortedClusters df).filterMap
    (fun cid => if cid = -1 then none else some (cid, descForWN df n m cid))

/-- Invariant of the Counter fold over the words seen so far: keys are
duplicate-free, every entry counts its key's occurrences among the seen
words, and every seen word has an entry. -/
def CounterInv (seen : List (List Char)) (acc : List (List Char × Nat)) : Prop :=
  (acc.map (fun p => p.1)).Nodup
  ∧ (∀ p ∈ acc, p.1 ∈ seen ∧ p.2 = seen.count p.1)
  ∧ ∀ w ∈ seen, w ∈ acc.map (fun p => p.1)

theorem counterInv_step (seen : List (List Char)) (acc : List (List Char × Nat))
    (w : List Char) (h : CounterInv seen acc) :
    CounterInv (seen ++ [w]) (countStep acc w) := by
  obtain ⟨hkeys, hent, hcompl⟩ := h
  unfold countStep
  by_cases hw : w ∈ acc.map (fun p => p.1)
  · have hany : acc.any (fun p => p.1 = w) = true := by
      rw [List.any_eq_true]
      rcases List.mem_map.mp hw with ⟨p, hp, hpw⟩
      exact ⟨p, hp, by simpa using hpw⟩
    rw [if_pos hany]
    have hkeys2 : (acc.map (fun p => if p.1 = w then (p.1, p.2 + 1) else p)).map
        (fun p => p.1) = acc.map (fun p => p.1) := by
      rw [List.map_map]
      apply List.map_congr_left
      intro p _
      by_cases hpw : p.1 = w
      · simp [hpw]
      · simp [hpw]
    refine ⟨by rw [hkeys2]; exact hkeys, ?_, ?_⟩
    · intro q hq
      rcases List.mem_map.mp hq with ⟨p, hp, hpq⟩
      by_cases hpw : p.1 = w
      · rw [if_pos hpw] at hpq
        rw [← hpq]
        constructor
        · simp [hpw]
        · have := (hent p hp).2
          rw [List.count_append]
          simp [hpw, this]
      · rw [if_neg hpw] at hpq
        rw [← hpq]
        constructor
        · exact List.mem_append_left _ (hent p hp).1
        · rw [List.count_append]
          have hc1 : List.count p.1 [w] = 0 := by
            simp [List.count_cons, hpw]
          rw [hc1, (hent p hp).2]
          omega
    · intro u hu
      rw [hkeys2]
      rcases List.mem_append.mp hu with h1 | h1
      · exact hcompl u h1
      · have : u = w := by simpa using h1
        rw [this]
        exact hw
  · have hany : ¬ (acc.any (fun p => p.1 = w) = true) := by
      rw [List.any_eq_true]
      rintro ⟨p, hp, hpw⟩
      exact hw (List.mem_map.mpr ⟨p, hp, by simpa using hpw⟩)
    rw [if_neg hany]
    have hwseen : w ∉ seen := fun hc => hw (hcompl w hc)
    refine ⟨?_, ?_, ?_⟩
    · rw [List.map_append]
      apply List.Nodup.append hkeys (by simp)
      intro u hu hu2
      have : u = w := by simpa using hu2
      rw [this] at hu
      exact hw hu
    · intro q hq
      rcases List.mem_append.mp hq with h1 | h1
      · have hp1 := hent q h1
        have hq1w : q.1 ≠ w := by
          intro hc
          apply hw
          rw [← hc]
          exact List.mem_map.mpr ⟨q, h1, rfl⟩
        constructor
        · exact List.mem_append_left _ hp1.1
        · rw [List.count_append]
          have hc1 : List.count q.1 [w] = 0 := by
            simp [List.count_cons, hq1w]
          rw [hc1, hp1.2]
          omega
      · have hq1 : q = (w, 1) := by simpa using h1
        rw [hq1]
        constructor
        · simp
        · rw [List.count_append]
          have hc0 : seen.count w = 0 := List.count_eq_zero.mpr hwseen
          simp [hc0]
    · intro u hu
      rw [List.map_append]
      rcases List.mem_append.mp hu with h1 | h1
      · exact List.mem_append_left _ (hcompl u h1)
      · have : u = w := by simpa using h1
        rw [this]
        apply List.mem_append_right
        simp

theorem countWords_inv (ws : List (List Char)) : CounterInv ws (countWords ws) := by
  have hgen : ∀ (l : List (List Char)) (seen : List (List Char))
      (acc : List (List Char × Nat)), CounterInv seen acc →
      CounterInv (seen ++ l) (l.foldl countStep acc) := by
    intro l
    induction l with
    | nil => intro seen acc h; simpa using h
    | cons w rest ih =>
      intro seen acc h
      rw [List.foldl_cons]
      have h2 := ih (seen ++ [w]) (countStep acc w) (counterInv_step seen acc w h)
      have heq : seen ++ [w] ++ rest = seen ++ w :: rest := by simp
      rw [heq] at h2
      exact h2
  have h0 : CounterInv [] [] := by
    refine ⟨by simp, ?_, by simp⟩
    intro p hp
    simp at hp
  have := hgen ws [] [] h0
  simpa [countWords] using this

/-- What the claim asserts of a descriptor, relative to the list ws of words
counted for that cluster: size is the cluster's row count; keywords are at
most n distinct words of ws, each at least as frequent in ws as every
non-keyword word, with no word left out unless the n-term budget is full;
sample_rows are at most five cluster rows, in descending probability order,
and no unsampled cluster row has higher probability than a sampled one. -/
def DescProps (df : List KRow) (n : Nat) (ws : List (List Char))
    (cid : Int) (d : ClusterDesc) : Prop :=
  d.size = (clusterRows df cid).length
  ∧ d.keywords.Nodup
  ∧ d.keywords.length ≤ n
  ∧ (∀ k ∈ d.keywords, k ∈ ws)
  ∧ (∀ k ∈ d.keywords, ∀ w ∈ ws, w ∉ d.keywords → ws.count w ≤ ws.count k)
  ∧ (∀ w ∈ ws, w ∈ d.keywords ∨ d.keywords.length = n)
  ∧ d.sample_rows.length = min 5 (clusterRows df cid).length
  ∧ List.Sorted (fun a b : KRow => b.probability ≤ a.probability) d.sample_rows
  ∧ ∃ rest, List.Perm (d.sample_rows ++ rest) (clusterRows df cid)
      ∧ ∀ s ∈ d.sample_rows, ∀ r ∈ rest, r.probability ≤ s.probability

theorem descProps_of_counts (df : List KRow) (n : Nat) (cid : Int)
    (ws : List (List Char)) :
    DescProps df n ws cid
      { keywords := ((sortByCountDesc (countWords ws)).take n).map (fun p => p.1)
        size := (clusterRows df cid).length
        top_words_with_freq := (sortByCountDesc (countWords ws)).take 20
        sample_rows := (sortByProbDesc (clusterRows df cid)).take 5 } := by
  obtain ⟨hkeys, hent, hcompl⟩ := countWords_inv ws
  have hperm : List.Perm (sortByCountDesc (countWords ws)) (countWords ws) :=
    List.perm_insertionSort _ _
  have hsorted : List.Sorted (fun a b : List Char × Nat => b.2 ≤ a.2)
      (sortByCountDesc (countWords ws)) :=
    List.sorted_insertionSort _ _
  have hsplit : (sortByCountDesc (countWords ws)).take n
      ++ (sortByCountDesc (countWords ws)).drop n
      = sortByCountDesc (countWords ws) := List.take_append_drop _ _
  have hcross : ∀ a ∈ (sortByCountDesc (countWords ws)).take n,
      ∀ b ∈ (sortByCountDesc (countWords ws)).drop n, b.2 ≤ a.2 := by
    have hpw : List.Pairwise (fun a b : List Char × Nat => b.2 ≤ a.2)
        ((sortByCountDesc (countWords ws)).take n
          ++ (sortByCountDesc (countWords ws)).drop n) := by
      rw [hsplit]
      exact hsorted
    exact (List.pairwise_append.mp hpw).2.2
  have hentS : ∀ p ∈ sortByCountDesc (countWords ws),
      p.1 ∈ ws ∧ p.2 = ws.count p.1 := by
    intro p hp
    exact hent p (hperm.mem_iff.mp hp)
  have hcomplS : ∀ w ∈ ws, ∃ p ∈ sortByCountDesc (countWords ws), p.1 = w := by
    intro w hwmem
    rcases List.mem_map.mp (hcompl w hwmem) with ⟨p, hp, hpw⟩
    exact ⟨p, hperm.mem_iff.mpr hp, hpw⟩
  refine ⟨rfl, ?_, ?_, ?_, ?_, ?_, ?_, ?_, ?_⟩
  · have hnod : ((sortByCountDesc (countWords ws)).map (fun p => p.1)).Nodup :=
      ((hperm.map (fun p => p.1)).nodup_iff).mpr hkeys
    exact hnod.sublist ((List.take_sublist n _).map _)
  · rw [List.length_map, List.length_take]
    exact min_le_left _ _
  · intro k hk
    rcases List.mem_map.mp hk with ⟨p, hp, hpk⟩
    rw [← hpk]
    exact (hentS p ((List.take_sublist n _).mem hp)).1
  · intro k hk w hwmem hwnot
    rcases List.mem_map.mp hk with ⟨p, hp, hpk⟩
    rcases hcomplS w hwmem with ⟨q, hq, hqw⟩
    have hqdrop : q ∈ (sortByCountDesc (countWords ws)).drop n := by
      rcases (List.mem_append.mp (by rw [hsplit]; exact hq)) with h1 | h1
      · exfalso
        apply hwnot
        rw [← hqw]
        exact List.mem_map.mpr ⟨q, h1, rfl⟩
      · exact h1
    have hle := hcross p hp q hqdrop
    have hq2 := (hentS q hq).2
    have hp2 := (hentS p ((List.take_sublist n _).mem hp)).2
    rw [hqw] at hq2
    rw [← hpk, ← hp2, ← hq2]
    exact hle
  · intro w hwmem
    by_cases hlen : (sortByCountDesc (countWords ws)).length ≤ n
    · left
      rcases hcomplS w hwmem with ⟨q, hq, hqw⟩
      have : (sortByCountDesc (countWords ws)).take n
          = sortByCountDesc (countWords ws) := List.take_of_length_le hlen
      rw [this]
      exact List.mem_map.mpr ⟨q, hq, hqw⟩
    · right
      rw [List.length_map, List.length_take]
      omega
  · rw [List.length_take]
    have hlen : (sortByProbDesc (clusterRows df cid)).length
        = (clusterRows df cid).length :=
      (List.perm_insertionSort _ _).length_eq
    rw [hlen]
  · exact (List.sorted_insertionSort _ _).sublist (List.take_sublist 5 _)
  · refine ⟨(sortByProbDesc (clusterRows df cid)).drop 5, ?_, ?_⟩
    · rw [List.take_append_drop]
      exact List.perm_insertionSort _ _
    · have hpw : List.Pairwise (fun a b : KRow => b.probability ≤ a.probability)
          ((sortByProbDesc (clusterRows df cid)).take 5
            ++ (sortByProbDesc (clusterRows df cid)).drop 5) := by
        rw [List.take_append_drop]
        exact List.sorted_insertionSort _ _
      exact (List.pairwise_append.mp hpw).2.2

theorem mem_extract_iff (df : List KRow) (n m : Nat) (cid : Int) (d : ClusterDesc) :
    (cid, d) ∈ extract_cluster_keywords df n m
      ↔ cid ∈ sortedClusters df ∧ cid ≠ -1 ∧ d = descFor df n m cid := by
  unfold extract_cluster_keywords
  rw [List.mem_filterMap]
  constructor
  · rintro ⟨c, hc, hsome⟩
    by_cases hcn : c = -1
    · rw [if_pos hcn] at hsome
      exact absurd hsome (by simp)
    · rw [if_neg hcn] at hsome
      have h2 := Option.some.inj hsome
      have hc1 : c = cid := congrArg Prod.fst h2
      have hd : d = descFor df n m c := (congrArg Prod.snd h2).symm
      rw [← hc1]
      exact ⟨hc, hcn, hd⟩
  · rintro ⟨hc, hcn, hd⟩
    refine ⟨cid, hc, ?_⟩
    rw [if_neg hcn, hd]

theorem mem_extract_wn_iff (df : List KRow) (n m : Nat) (cid : Int) (d : ClusterDesc) :
    (cid, d) ∈ extract_cluster_keywords_wn df n m
      ↔ cid ∈ sortedClusters df ∧ cid ≠ -1 ∧ d = descForWN df n m cid := by
  unfold extract_cluster_keywords_wn
  rw [List.mem_filterMap]
  constructor
  · rintro ⟨c, hc, hsome⟩
    by_cases hcn : c = -1
    · rw [if_pos hcn] at hsome
      exact absurd hsome (by simp)
    · rw [if_neg hcn] at hsome
      have h2 := Option.some.inj hsome
      have hc1 : c = cid := congrArg Prod.fst h2
      have hd : d = descForWN df n m c := (congrArg Prod.snd h2).symm
      rw [← hc1]
      exact ⟨hc, hcn, hd⟩
  · rintro ⟨hc, hcn, hd⟩
    refine ⟨cid, hc, ?_⟩
    rw [if_neg hcn, hd]

theorem mem_sortedClusters_iff (df : List KRow) (cid : Int) :
    cid ∈ sortedClusters df ↔ cid ∈ df.map (fun r => r.cluster) := by
  unfold sortedClusters
  rw [(List.perm_insertionSort _ _).mem_iff, List.mem_dedup]

/-- C4 (amended): for every cluster id other than -1 appearing in the table,
both variants produce a descriptor whose size is the cluster's row count,
whose keywords are the n_terms most frequent qualifying words (qualifying
means strictly longer than min_word_length and, in the WordNet variant,
not purely numeric), and whose sample_rows are at most five highest
probability rows in descending order; the noise sentinel -1 receives no
descriptor. -/
theorem c4_extract_cluster_keywords_amended (df : List KRow) (n m : Nat) :
    (∀ d, (-1, d) ∉ extract_cluster_keywords df n m)
    ∧ (∀ d, (-1, d) ∉ extract_cluster_keywords_wn df n m)
    ∧ (∀ cid, cid ∈ df.map (fun r => r.cluster) → cid ≠ -1 →
        ((cid, descFor df n m cid) ∈ extract_cluster_keywords df n m
          ∧ (cid, descForWN df n m cid) ∈ extract_cluster_keywords_wn df n m))
    ∧ (∀ cid d, (cid, d) ∈ extract_cluster_keywords df n m →
        DescProps df n (clusterWords df cid m) cid d)
    ∧ (∀ cid d, (cid, d) ∈ extract_cluster_keywords_wn df n m →
        DescProps df n (clusterWordsWN df cid m) cid d) := by
  refine ⟨?_, ?_, ?_, ?_, ?_⟩
  · intro d hd
    exact ((mem_extract_iff df n m (-1) d).mp hd).2.1 rfl
  · intro d hd
    exact ((mem_extract_wn_iff df n m (-1) d).mp hd).2.1 rfl
  · intro cid hmem hne
    constructor
    · exact (mem_extract_iff df n m cid _).mpr
        ⟨(mem_sortedClusters_iff df cid).mpr hmem, hne, rfl⟩
    · exact (mem_extract_wn_iff df n m cid _).mpr
        ⟨(mem_sortedClusters_iff df cid).mpr hmem, hne, rfl⟩
  · intro cid d hd
    rw [((mem_extract_iff df n m cid d).mp hd).2.2]
    exact descProps_of_counts df n cid (clusterWords df cid m)
  · intro cid d hd
    rw [((mem_extract_wn_iff df n m cid d).mp hd).2.2]
    exact descProps_of_counts df n cid (clusterWordsWN df cid m)

/-- Table for the C4 counterexample: one cluster-0 row whose text holds the
numeric word 111 twice and the word aaa once. -/
def dfC4 : List KRow :=
  [{ rid := 0, text := "111 111 aaa".data, cluster := 0, probability := 1 }]

/-- C4 counterexample: in the table dfC4, the word 111 qualifies under the
claim's counting rule (length 3 above min_word_length 2) and is the most
frequent word of cluster 0, there are only two distinct qualifying words
against n_terms = 10, yet the WordNet variant's descriptor omits it — its
extra not-isdigit filter contradicts the claim's description of the counted
words. -/
theorem c4_wn_drops_digit_words :
    "111".data ∈ clusterWords dfC4 0 2
      ∧ 2 < ("111".data).length
      ∧ (countWords (clusterWords dfC4 0 2)).length ≤ 10
      ∧ (clusterWords dfC4 0 2).count ("111".data) = 2
      ∧ extract_cluster_keywords_wn dfC4 10 2
          = [(0, { keywords := ["aaa".data]
                   size := 1
                   top_words_with_freq := [("aaa".data, 1)]
                   sample_rows := dfC4 })] := by
  decide

/-- C4 witness: on the concrete table the theorem yields that noise gets no
descriptor and cluster 0's descriptor satisfies every claimed property. -/
theorem c4_witness :
    (∀ d, (-1, d) ∉ extract_cluster_keywords dfC4 10 2)
      ∧ DescProps dfC4 10 (clusterWords dfC4 0 2) 0 (descFor dfC4 10 2 0) := by
  have h := c4_extract_cluster_keywords_amended dfC4 10 2
  refine ⟨h.1, h.2.2.2.1 0 (descFor dfC4 10 2 0) ?_⟩
  exact (mem_extract_iff dfC4 10 2 0 _).mpr ⟨by decide, by decide, rfl⟩

/- ======= C8: the report exporters only read the table and the tree ===== -/

/-- The in-memory state of the visualizer that the exporters touch: the
table, the condensed tree, the prediction-data cluster map, the three
overall statistics, and the two lazily derived caches. -/
structure VizState where
  df : List KRow
  tree : List TreeEdge
  cluster_map : List (Int × Int)
  n_samples : Nat
  n_clusters : Nat
  n_noise : Nat
  cluster_descriptions : Option (List (Int × ClusterDesc))
  color_map : Option (List (Int × String))

/-- sorted(df[df["cluster"] != -1]["cluster"].unique()). -/
def sortedNonNoiseClusters (df : List KRow) : List Int :=
  List.insertionSort (fun a b => a ≤ b)
    (((df.filter (fun r => !(r.cluster == -1))).map (fun r => r.cluster)).dedup)

/-- generate_cluster_colors: the HSV palette itself is float arithmetic and
is abstracted as the palette oracle; the map pairs the sorted non-noise
clusters with successive palette colors and adds grey for noise. -/
def generate_cluster_colors (palette : Nat → String) (df : List KRow) :
    List (Int × String) :=
  ((List.insertionSort (fun a b => a ≤ b)
      (((df.map (fun r => r.cluster)).dedup).filter (fun c => !(c == -1)))).enum.map
    (fun ic => (ic.2, palette ic.1))) ++ [(-1, "#cccccc")]

/-- The lazy cache fill `if not hasattr(self, 'cluster_descriptions'):
self.extract_cluster_keywords()` (defaults n_terms=5, min_word_length=2). -/
def fillDescs (s : VizState) : VizState :=
  if s.cluster_descriptions.isSome then s
  else { s with cluster_descriptions := some (extract_cluster_keywords s.df 5 2) }

/-- The lazy cache fill `if not hasattr(self, 'color_map'):
self.generate_cluster_colors()`. -/
def fillColors (palette : Nat → String) (s : VizState) : VizState :=
  if s.color_map.isSome then s
  else { s with color_map := some (generate_cluster_colors palette s.df) }

/-- The one-level size used by the text exporter:
node_sizes.get(node, sum(node_sizes.get(c, 1) for c in
parent_children.get(node, []))). -/
def textNodeSize (t : List TreeEdge) (n : Int) : Nat :=
  match directSize t n with
  | some s => s
  | none => ((childrenOf t n).map (fun c => (directSize t c).getD 1)).sum

/-- print_hierarchy_to_file: write a line for every node of size above one,
recursing into its children with an extra indent level. -/
def printHierarchy (t : List TreeEdge) : Nat → Int → Nat → List (Nat × Int × Nat)
  | 0, _, _ => []
  | fuel + 1, node, level =>
    if 1 < textNodeSize t node then
      (level, node, textNodeSize t node) ::
        ((childrenOf t node).flatMap (fun c => printHierarchy t fuel c (level + 1)))
    else []

/-- Mean of the probability column of some rows. -/
def avgProb (rows : List KRow) : ℚ :=
  (rows.map (fun r => r.probability)).sum / (rows.length : ℚ)

/-- One DETAILED CLUSTER INFORMATION section of the text report. -/
def clusterSection (df : List KRow) (descs : List (Int × ClusterDesc))
    (cid : Int) : Int × Nat × ℚ × List (List Char) :=
  (cid, (clusterRows df cid).length, avgProb (clusterRows df cid),
    ((descs.find? (fun p => p.1 = cid)).map (fun p => p.2.keywords)).getD [])

/-- The content of the text report file, as data. -/
structure TextReport where
  n_samples : Nat
  n_clusters : Nat
  n_noise : Nat
  hierarchyLines : List (Nat × Int × Nat)
  clusterSections : List (Int × Nat × ℚ × List (List Char))

/-- export_hierarchical_clustering_results: derive the keyword cache when
absent, then write the report from the statistics, the condensed tree
traversal and the per-cluster table slices. -/
def export_hierarchical_clustering_results (s : VizState) :
    VizState × TextReport :=
  (fillDescs s,
    { n_samples := (fillDescs s).n_samples
      n_clusters := (fillDescs s).n_clusters
      n_noise := (fillDescs s).n_noise
      hierarchyLines := (root_nodes (fillDescs s).tree).flatMap
        (fun r => printHierarchy (fillDescs s).tree
          ((fillDescs s).tree.length + 1) r 0)
      clusterSections := (sortedNonNoiseClusters (fillDescs s).df).map
        (clusterSection (fillDescs s).df
          ((fillDescs s).cluster_descriptions.getD [])) })

/-- One cluster card of the HTML report: id, color, recorded size, average
confidence, keywords, and the sample rows. -/
def clusterCard (df : List KRow) (descs : List (Int × ClusterDesc))
    (colors : List (Int × String)) (cid : Int) :
    Int × String × Nat × ℚ × List (List Char) × List KRow :=
  (cid, colorOf colors cid,
    ((descs.find? (fun p => p.1 = cid)).map (fun p => p.2.size)).getD 0,
    avgProb (clusterRows df cid),
    ((descs.find? (fun p => p.1 = cid)).map (fun p => p.2.keywords)).getD [],
    ((descs.find? (fun p => p.1 = cid)).map (fun p => p.2.sample_rows)).getD [])

/-- The content of the HTML report file, as data. -/
structure HtmlReport where
  n_samples : Nat
  n_clusters : Nat
  n_noise : Nat
  hierarchy : List RNode
  clusterCards : List (Int × String × Nat × ℚ × List (List Char) × List KRow)

/-- export_hierarchical_report_html: derive both caches when absent, then
write the report from the statistics, the rendered hierarchy and the
per-cluster cards. -/
def export_hierarchical_report_html (palette : Nat → String) (s : VizState) :
    VizState × HtmlReport :=
  (fillColors palette (fillDescs s),
    { n_samples := (fillColors palette (fillDescs s)).n_samples
      n_clusters := (fillColors palette (fillDescs s)).n_clusters
      n_noise := (fillColors palette (fillDescs s)).n_noise
      hierarchy := hierarchy_html (fillColors palette (fillDescs s)).tree
        (fillColors palette (fillDescs s)).cluster_map
        ((fillColors palette (fillDescs s)).color_map.getD [])
        (((fillColors palette (fillDescs s)).cluster_descriptions.getD []).map
          (fun p => (p.1, p.2.keywords)))
      clusterCards := (sortedNonNoiseClusters (fillColors palette (fillDescs s)).df).map
        (clusterCard (fillColors palette (fillDescs s)).df
          ((fillColors palette (fillDescs s)).cluster_descriptions.getD [])
          ((fillColors palette (fillDescs s)).color_map.getD [])) })

theorem fillDescs_frame (s : VizState) :
    (fillDescs s).df = s.df ∧ (fillDescs s).tree = s.tree
      ∧ (fillDescs s).cluster_map = s.cluster_map
      ∧ (fillDescs s).n_samples = s.n_samples
      ∧ (fillDescs s).n_clusters = s.n_clusters
      ∧ (fillDescs s).n_noise = s.n_noise
      ∧ (fillDescs s).color_map = s.color_map := by
  unfold fillDescs
  by_cases h : s.cluster_descriptions.isSome
  · rw [if_pos h]
    exact ⟨rfl, rfl, rfl, rfl, rfl, rfl, rfl⟩
  · rw [if_neg h]
    exact ⟨rfl, rfl, rfl, rfl, rfl, rfl, rfl⟩

theorem fillColors_frame (palette : Nat → String) (s : VizState) :
    (fillColors palette s).df = s.df ∧ (fillColors palette s).tree = s.tree
      ∧ (fillColors palette s).cluster_map = s.cluster_map
      ∧ (fillColors palette s).n_samples = s.n_samples
      ∧ (fillColors palette s).n_clusters = s.n_clusters
      ∧ (fillColors palette s).n_noise = s.n_noise
      ∧ (fillColors palette s).cluster_descriptions = s.cluster_descriptions := by
  unfold fillColors
  by_cases h : s.color_map.isSome
  · rw [if_pos h]
    exact ⟨rfl, rfl, rfl, rfl, rfl, rfl, rfl⟩
  · rw [if_neg h]
    exact ⟨rfl, rfl, rfl, rfl, rfl, rfl, rfl⟩

theorem fillDescs_cache (s : VizState) :
    (∀ d, s.cluster_descriptions = some d →
        (fillDescs s).cluster_descriptions = some d)
      ∧ (s.cluster_descriptions = none →
        (fillDescs s).cluster_descriptions
          = some (extract_cluster_keywords s.df 5 2)) := by
  unfold fillDescs
  constructor
  · intro d hd
    rw [if_pos (by rw [hd]; rfl)]
    exact hd
  · intro hn
    rw [if_neg (by rw [hn]; simp)]

theorem fillColors_cache (palette : Nat → String) (s : VizState) :
    (∀ c, s.color_map = some c → (fillColors palette s).color_map = some c)
      ∧ (s.color_map = none →
        (fillColors palette s).color_map
          = some (generate_cluster_colors palette s.df)) := by
  unfold fillColors
  constructor
  · intro c hc
    rw [if_pos (by rw [hc]; rfl)]
    exact hc
  · intro hn
    rw [if_neg (by rw [hn]; simp)]

/-- C8: both exporters leave the table, the condensed tree, the cluster map
and the three statistics unchanged; their only state effects are deriving
the cluster_descriptions cache (and, for the HTML exporter, the color_map
cache) when absent, as the report file itself is only an output. -/
theorem c8_exporters_only_read (palette : Nat → String) (s : VizState) :
    ((export_hierarchical_clustering_results s).1.df = s.df
      ∧ (export_hierarchical_clustering_results s).1.tree = s.tree
      ∧ (export_hierarchical_clustering_results s).1.cluster_map = s.cluster_map
      ∧ (export_hierarchical_clustering_results s).1.n_samples = s.n_samples
      ∧ (export_hierarchical_clustering_results s).1.n_clusters = s.n_clusters
      ∧ (export_hierarchical_clustering_results s).1.n_noise = s.n_noise
      ∧ (export_hierarchical_clustering_results s).1.color_map = s.color_map
      ∧ (∀ d, s.cluster_descriptions = some d →
          (export_hierarchical_clustering_results s).1.cluster_descriptions = some d)
      ∧ (s.cluster_descriptions = none →
          (export_hierarchical_clustering_results s).1.cluster_descriptions
            = some (extract_cluster_keywords s.df 5 2)))
    ∧ ((export_hierarchical_report_html palette s).1.df = s.df
      ∧ (export_hierarchical_report_html palette s).1.tree = s.tree
      ∧ (export_hierarchical_report_html palette s).1.cluster_map = s.cluster_map
      ∧ (export_hierarchical_report_html palette s).1.n_samples = s.n_samples
      ∧ (export_hierarchical_report_html palette s).1.n_clusters = s.n_clusters
      ∧ (export_hierarchical_report_html palette s).1.n_noise = s.n_noise
      ∧ (∀ d, s.cluster_descriptions = some d →
          (export_hierarchical_report_html palette s).1.cluster_descriptions = some d)
      ∧ (s.cluster_descriptions = none →
          (export_hierarchical_report_html palette s).1.cluster_descriptions
            = some (extract_cluster_keywords s.df 5 2))
      ∧ (∀ c, s.color_map = some c →
          (export_hierarchical_report_html palette s).1.color_map = some c)
      ∧ (s.color_map = none →
          (export_hierarchical_report_html palette s).1.color_map
            = some (generate_cluster_colors palette s.df))) := by
  have hd := fillDescs_frame s
  have hdc := fillDescs_cache s
  have hc := fillColors_frame palette (fillDescs s)
  have hcc := fillColors_cache palette (fillDescs s)
  constructor
  · exact ⟨hd.1, hd.2.1, hd.2.2.1, hd.2.2.2.1, hd.2.2.2.2.1, hd.2.2.2.2.2.1,
      hd.2.2.2.2.2.2, hdc.1, hdc.2⟩
  · refine ⟨?_, ?_, ?_, ?_, ?_, ?_, ?_, ?_, ?_, ?_⟩
    · rw [show (export_hierarchical_report_html palette s).1
          = fillColors palette (fillDescs s) from rfl, hc.1, hd.1]
    · rw [show (export_hierarchical_report_html palette s).1
          = fillColors palette (fillDescs s) from rfl, hc.2.1, hd.2.1]
    · rw [show (export_hierarchical_report_html palette s).1
          = fillColors palette (fillDescs s) from rfl, hc.2.2.1, hd.2.2.1]
    · rw [show (export_hierarchical_report_html palette s).1
          = fillColors palette (fillDescs s) from rfl, hc.2.2.2.1, hd.2.2.2.1]
    · rw [show (export_hierarchical_report_html palette s).1
          = fillColors palette (fillDescs s) from rfl, hc.2.2.2.2.1, hd.2.2.2.2.1]
    · rw [show (export_hierarchical_report_html palette s).1
          = fillColors palette (fillDescs s) from rfl, hc.2.2.2.2.2.1,
        hd.2.2.2.2.2.1]
    · intro d hsd
      rw [show (export_hierarchical_report_html palette s).1
          = fillColors palette (fillDescs s) from rfl, hc.2.2.2.2.2.2]
      exact hdc.1 d hsd
    · intro hn
      rw [show (export_hierarchical_report_html palette s).1
          = fillColors palette (fillDescs s) from rfl, hc.2.2.2.2.2.2]
      exact hdc.2 hn
    · intro c hsc
      rw [show (export_hierarchical_report_html palette s).1
          = fillColors palette (fillDescs s) from rfl]
      exact hcc.1 c (by rw [hd.2.2.2.2.2.2]; exact hsc)
    · intro hn
      rw [show (export_hierarchical_report_html palette s).1
          = fillColors palette (fillDescs s) from rfl, hcc.2
            (by rw [hd.2.2.2.2.2.2]; exact hn), hd.1]

/-- A concrete state for the C8 witness: empty caches. -/
def sC8 : VizState :=
  { df := dfC4, tree := tW, cluster_map := cmW
    n_samples := 1, n_clusters := 1, n_noise := 0
    cluster_descriptions := none, color_map := none }

/-- C8 witness: on the concrete state the theorem gives that the text
exporter leaves the table and tree untouched and fills the keyword cache. -/
theorem c8_witness :
    (export_hierarchical_clustering_results sC8).1.df = sC8.df
      ∧ (export_hierarchical_clustering_results sC8).1.tree = sC8.tree
      ∧ (export_hierarchical_clustering_results sC8).1.cluster_descriptions
          = some (extract_cluster_keywords sC8.df 5 2) := by
  have h := c8_exporters_only_read (fun _ => "#000000") sC8
  exact ⟨h.1.1, h.1.2.1, h.1.2.2.2.2.2.2.2.2 (by rfl)⟩

/- ============ C9: split_into_sentences (protect / split / restore) ===== -/

def isUpperAscii (c : Char) : Bool := decide ('A' ≤ c) && decide (c ≤ 'Z')

def isDigitAscii (c : Char) : Bool := decide ('0' ≤ c) && decide (c ≤ '9')

/-- A word boundary holds before a word-initial pattern character when the
preceding character is absent or not a word character. -/
def isBoundaryBefore (prev : Option Char) : Bool :=
  match prev with
  | none => true
  | some c => !isWordCharPy c

/-- re.sub(r'([.!?])([A-Z])', r'\1 \2', text): insert a space between a
sentence-ending mark and an immediately following capital. -/
def p1_space_after_punct : List Char → List Char
  | [] => []
  | [c] => [c]
  | a :: b :: rest =>
    if (a == '.' || a == '!' || a == '?') && isUpperAscii b then
      a :: ' ' :: p1_space_after_punct (b :: rest)
    else a :: p1_space_after_punct (b :: rest)

/-- Leftmost, non-overlapping substitution of a word-initial literal pattern
guarded by a word boundary (the protections for et al., e.g., i.e., cf.).
The fuel is the remaining input length; every step consumes input. -/
def scanRep (pat rep : List Char) : Nat → Option Char → List Char → List Char
  | 0, _, s => s
  | fuel + 1, prev, s =>
    match s with
    | [] => []
    | c :: rest =>
      if isBoundaryBefore prev && pat.isPrefixOf (c :: rest) then
        rep ++ scanRep pat rep fuel pat.getLast? ((c :: rest).drop pat.length)
      else c :: scanRep pat rep fuel (some c) rest

/-- The alternation (Mr|Mrs|Ms|Dr|Prof|Sr|Jr) of the title protection. -/
def titles : List (List Char) :=
  ["Mr".data, "Mrs".data, "Ms".data, "Dr".data, "Prof".data, "Sr".data, "Jr".data]

/-- Try the title pattern `title + period + one whitespace` at a position:
returns the title, the matched whitespace character and the remainder. -/
def titleStep (s : List Char) : Option (List Char × Char × List Char) :=
  (titles.filterMap (fun T =>
    if T.isPrefixOf s then
      match s.drop T.length with
      | '.' :: w :: rest2 => if isSpacePy w then some (T, w, rest2) else none
      | _ => none
    else none)).head?

/-- re.sub(r'\b(Mr|Mrs|Ms|Dr|Prof|Sr|Jr)\.\s', r'\1_DOT_MARKER ', text). -/
def scanTitles : Nat → Option Char → List Char → List Char
  | 0, _, s => s
  | fuel + 1, prev, s =>
    match s with
    | [] => []
    | c :: rest =>
      if isBoundaryBefore prev then
        match titleStep (c :: rest) with
        | some (T, w, rest2) =>
          T ++ "_DOT_MARKER ".data ++ scanTitles fuel (some w) rest2
        | none => c :: scanTitles fuel (some c) rest
      else c :: scanTitles fuel (some c) rest

/-- re.sub(r'(\d+)\.(\d+)', r'\1_DECIMAL_\2', text): greedy digit runs
around a period. -/
def scanDecimal : Nat → List Char → List Char
  | 0, s => s
  | fuel + 1, s =>
    match s with
    | [] => []
    | c :: rest =>
      if isDigitAscii c then
        match (c :: rest).dropWhile isDigitAscii with
        | '.' :: r2 =>
          if (r2.head?.map isDigitAscii).getD false then
            (c :: rest).takeWhile isDigitAscii ++ "_DECIMAL_".data
              ++ r2.takeWhile isDigitAscii
              ++ scanDecimal fuel (r2.dropWhile isDigitAscii)
          else c :: scanDecimal fuel rest
        | _ => c :: scanDecimal fuel rest
      else c :: scanDecimal fuel rest

/-- re.sub(r'\b([A-Z])\.(\s*[A-Z])', r'\1_INITIAL_\2', text): the period of
a single-capital initial is dropped here and re-inserted by the restore. -/
def scanInitials : Nat → Option Char → List Char → List Char
  | 0, _, s => s
  | fuel + 1, prev, s =>
    match s with
    | [] => []
    | c :: rest =>
      if isBoundaryBefore prev && isUpperAscii c then
        match rest with
        | '.' :: r2 =>
          match r2.dropWhile isSpacePy with
          | y :: r4 =>
            if isUpperAscii y then
              c :: "_INITIAL_".data ++ r2.takeWhile isSpacePy
                ++ y :: scanInitials fuel (some y) r4
            else c :: scanInitials fuel (some c) rest
          | [] => c :: scanInitials fuel (some c) rest
        | _ => c :: scanInitials fuel (some c) rest
      else c :: scanInitials fuel (some c) rest

/-- protect_parens: every period inside the parenthesized run becomes
_PAREN_DOT_. -/
def parenSub (content : List Char) : List Char :=
  content.flatMap (fun c => if c == '.' then "_PAREN_DOT_".data else [c])

/-- re.sub(r'\([^)]+\)', protect_parens, text). -/
def scanParens : Nat → List Char → List Char
  | 0, s => s
  | fuel + 1, s =>
    match s with
    | [] => []
    | c :: rest =>
      if c == '(' then
        match rest.dropWhile (fun d => !(d == ')')) with
        | ')' :: r2 =>
          if (rest.takeWhile (fun d => !(d == ')'))).isEmpty then
            c :: scanParens fuel rest
          else
            '(' :: parenSub (rest.takeWhile (fun d => !(d == ')')))
              ++ ')' :: scanParens fuel r2
        | _ => c :: scanParens fuel rest
      else c :: scanParens fuel rest

def isSentEnd (c : Char) : Bool := c == '.' || c == '!' || c == '?'

def isSplitFollow (c : Char) : Bool :=
  isUpperAscii c || c == '"' || c == '\'' || c == '('

/-- re.split(r'(?<=[.!?])\s+(?=[A-Z"\x27\x28])', text): a whitespace run
preceded by a sentence-ending mark and followed by a capital, quote or open
parenthesis is removed and splits the text. -/
def splitSentencesAux : Nat → Option Char → List Char → List Char → List (List Char)
  | 0, _, cur, s => [cur.reverse ++ s]
  | fuel + 1, prev, cur, s =>
    match s with
    | [] => [cur.reverse]
    | c :: rest =>
      if isSpacePy c && (prev.map isSentEnd).getD false then
        match (c :: rest).dropWhile isSpacePy with
        | y :: _ =>
          if isSplitFollow y then
            cur.reverse :: splitSentencesAux fuel none []
              ((c :: rest).dropWhile isSpacePy)
          else
            splitSentencesAux fuel (some (((c :: rest).takeWhile isSpacePy).getLastD c))
              (((c :: rest).takeWhile isSpacePy).reverse ++ cur)
              ((c :: rest).dropWhile isSpacePy)
        | [] => [cur.reverse ++ (c :: rest)]
      else splitSentencesAux fuel (some c) (c :: cur) rest

/-- Python str.replace: replace every non-overlapping occurrence, scanning
left to right. -/
def replaceAll (pat rep : List Char) : Nat → List Char → List Char
  | 0, s => s
  | fuel + 1, s =>
    match s with
    | [] => []
    | c :: rest =>
      if pat.isPrefixOf (c :: rest) then
        rep ++ replaceAll pat rep fuel ((c :: rest).drop pat.length)
      else c :: replaceAll pat rep fuel rest

/-- The largest offset at least 1 in the word run at which _DOT_MARKER
begins: regex \w+ is greedy, so the match keeps the rightmost marker
occurrence reachable from the run start. -/
def findLastMarkerOffset (run marker : List Char) : Option Nat :=
  ((List.range (run.length + 1)).filter
    (fun j => decide (1 ≤ j) && marker.isPrefixOf (run.drop j))).getLast?

/-- re.sub(r'(\w+)_DOT_MARKER', r'\1.', sent). -/
def scanDotMarkerRestore : Nat → List Char → List Char
  | 0, s => s
  | fuel + 1, s =>
    match s with
    | [] => []
    | c :: rest =>
      if isWordCharPy c then
        match findLastMarkerOffset ((c :: rest).takeWhile isWordCharPy)
            ("_DOT_MARKER".data) with
        | some j =>
          ((c :: rest).takeWhile isWordCharPy).take j ++ '.'
            :: scanDotMarkerRestore fuel
              (((c :: rest).takeWhile isWordCharPy).drop (j + 11)
                ++ (c :: rest).dropWhile isWordCharPy)
        | none =>
          (c :: rest).takeWhile isWordCharPy
            ++ scanDotMarkerRestore fuel ((c :: rest).dropWhile isWordCharPy)
      else c :: scanDotMarkerRestore fuel rest

/-- re.sub(r'(\d+)_DECIMAL_(\d+)', r'\1.\2', sent). -/
def scanDecimalRestore : Nat → List Char → List Char
  | 0, s => s
  | fuel + 1, s =>
    match s with
    | [] => []
    | c :: rest =>
      if isDigitAscii c then
        if ("_DECIMAL_".data).isPrefixOf ((c :: rest).dropWhile isDigitAscii) then
          match ((c :: rest).dropWhile isDigitAscii).drop 9 with
          | y :: _ =>
            if isDigitAscii y then
              (c :: rest).takeWhile isDigitAscii ++ '.'
                :: ((((c :: rest).dropWhile isDigitAscii).drop 9).takeWhile isDigitAscii)
                ++ scanDecimalRestore fuel
                  ((((c :: rest).dropWhile isDigitAscii).drop 9).dropWhile isDigitAscii)
            else c :: scanDecimalRestore fuel rest
          | [] => c :: scanDecimalRestore fuel rest
        else c :: scanDecimalRestore fuel rest
      else c :: scanDecimalRestore fuel rest

/-- re.sub(r'([A-Z])_INITIAL_', r'\1.', sent). -/
def scanInitialRestore : Nat → List Char → List Char
  | 0, s => s
  | fuel + 1, s =>
    match s with
    | [] => []
    | c :: rest =>
      if isUpperAscii c && ("_INITIAL_".data).isPrefixOf rest then
        c :: '.' :: scanInitialRestore fuel (rest.drop 9)
      else c :: scanInitialRestore fuel rest

/-- Python str.strip() over the ASCII whitespace repertoire. -/
def stripWs (s : List Char) : List Char :=
  ((s.dropWhile isSpacePy).reverse.dropWhile isSpacePy).reverse

/-- The restore passes applied to one raw sentence, in source order. -/
def restoreSentence (sent : List Char) : List Char :=
  let r1 := replaceAll ("ET_AL_MARKER".data) ("et al.".data) sent.length sent
  let r2 := replaceAll ("EG_MARKER".data) ("e.g.".data) r1.length r1
  let r3 := replaceAll ("IE_MARKER".data) ("i.e.".data) r2.length r2
  let r4 := replaceAll ("CF_MARKER".data) ("cf.".data) r3.length r3
  let r5 := scanDotMarkerRestore r4.length r4
  let r6 := scanDecimalRestore r5.length r5
  let r7 := scanInitialRestore r6.length r6
  replaceAll ("_PAREN_DOT_".data) (".".data) r7.length r7

/-- split_into_sentences: fix missing spaces, protect abbreviations,
decimals, initials and parenthesized periods, split on sentence boundaries,
then restore and strip each piece, dropping empties. -/
def split_into_sentences (text : List Char) : List (List Char) :=
  let t1 := p1_space_after_punct text
  let t2 := scanRep ("et al.".data) ("ET_AL_MARKER".data) t1.length none t1
  let t3 := scanRep ("e.g.".data) ("EG_MARKER".data) t2.length none t2
  let t4 := scanRep ("i.e.".data) ("IE_MARKER".data) t3.length none t3
  let t5 := scanRep ("cf.".data) ("CF_MARKER".data) t4.length none t4
  let t6 := scanTitles t5.length none t5
  let t7 := scanDecimal t6.length t6
  let t8 := scanInitials t7.length none t7
  let t9 := scanParens t8.length t8
  let raw := splitSentencesAux (t9.length + 1) none [] t9
  (raw.map (fun sent => stripWs (restoreSentence sent))).filter
    (fun r => !r.isEmpty)

/-- Does pat occur as a contiguous substring of s? -/
def containsSub (pat s : List Char) : Bool :=
  (List.range (s.length + 1)).any (fun i => pat.isPrefixOf (s.drop i))

/-- The internal protection markers of split_into_sentences. -/
def markerStrings : List (List Char) :=
  ["ET_AL_MARKER".data, "EG_MARKER".data, "IE_MARKER".data, "CF_MARKER".data,
   "_DOT_MARKER".data, "_DECIMAL_".data, "_INITIAL_".data, "_PAREN_DOT_".data]

/-- The input is free of every protection-marker substring. -/
def noMarkers (s : List Char) : Bool :=
  markerStrings.all (fun m => !containsSub m s)

/-- The non-whitespace character sequence of a string. -/
def nonWs (s : List Char) : List Char := s.filter (fun c => !isSpacePy c)

/-- The failing input: it contains no protection marker (only the fragment
_PAREN_DOT without the closing underscore), and its period sits inside
parentheses. -/
def c9Input : List Char := "(a_PAREN_DOT.b)".data

/-- C9: the protect/restore passes are not mutually inverse.  On the
marker-free input (a_PAREN_DOT.b) the paren protection rewrites the period
to _PAREN_DOT_, the adjacent input fragment _PAREN_DOT makes the restore
find the marker eleven characters early, and the code returns
(a.PAREN_DOT_b): the period and the underscore have traded places, so the
concatenated output does not preserve the input's non-whitespace character
sequence. -/
theorem c9_marker_collision_bug :
    noMarkers c9Input = true
      ∧ split_into_sentences c9Input = ["(a.PAREN_DOT_b)".data]
      ∧ nonWs ((split_into_sentences c9Input).flatMap id) ≠ nonWs c9Input := by
  decide

/-- On inputs without marker fragments the pipeline behaves as designed:
the abbreviation and decimal protections round-trip, the text is split at
sentence boundaries, and the non-whitespace character sequence is kept. -/
theorem split_into_sentences_round_trip :
    split_into_sentences ("He saw 3.14 e.g. here. Fine.".data)
        = ["He saw 3.14 e.g. here.".data, "Fine.".data]
      ∧ split_into_sentences ("Hello world. Next one!".data)
        = ["Hello world.".data, "Next one!".data]
      ∧ nonWs ((split_into_sentences ("He saw 3.14 e.g. here. Fine.".data)).flatMap id)
        = nonWs ("He saw 3.14 e.g. here. Fine.".data) := by
  decide
